import Mathlib

/-!
Verification of the fan-out / aggregate / verify CSV pipeline
(`fan_out_by_storeid.py`, `aggregate_by_store.py`, `verify_fanout.py`).

The Python scripts are shallowly embedded: CSV rows are `List String`,
the output tree is an association list of store directories each holding
an association list of files (a file's content is its list of CSV rows),
and pandas numeric cells are parsed into `Option ℚ`.
-/

namespace TingETL

/-- A CSV row, as produced by `csv.reader`: a list of string cells. -/
abbrev Row := List String

/-! ### Python string primitives used by the scripts -/

/-- Whitespace test used by `str.strip()` (restricted to the ASCII
whitespace characters; Python also strips some further Unicode spaces,
none of which occur in this development). -/
def pyIsSpace (c : Char) : Bool :=
  c = ' ' || c = '\t' || c = '\n' || c = '\r' || c = '\x0b' || c = '\x0c'

/-- Python `str.strip()` on the character list of a string. -/
def stripChars (cs : List Char) : List Char :=
  ((cs.dropWhile pyIsSpace).reverse.dropWhile pyIsSpace).reverse

/-- Python `str.strip()`. -/
def pyStrip (s : String) : String := ⟨stripChars s.data⟩

/-- Python `str.endswith(".0")`: the last two characters are `.` `0`. -/
def endsWithDot0 (s : String) : Bool :=
  match s.data.reverse with
  | '0' :: '.' :: _ => true
  | _ => false

/-- Python `s.split(".")[0]`: everything before the first `.`
(the whole string when there is no dot). -/
def beforeFirstDot (s : String) : String := ⟨s.data.takeWhile (· ≠ '.')⟩

/-- Characters accepted by Python `str.isdigit()`: Unicode characters of
Numeric_Type Decimal or Digit.  Python's table covers all of Unicode; this
model lists the decimal-digit blocks relevant here (ASCII, Arabic-Indic,
extended Arabic-Indic, Devanagari, fullwidth) together with the
superscript/subscript digits — on every character in these ranges the
model agrees exactly with CPython.  Note this is strictly larger than the
ASCII digits: e.g. `'²'` (U+00B2) satisfies `str.isdigit`. -/
def pyIsDigitChar (c : Char) : Bool :=
  ('0' ≤ c && c ≤ '9')
  || c = '²' || c = '³' || c = '¹'
  || (0x660 ≤ c.val && c.val ≤ 0x669)
  || (0x6F0 ≤ c.val && c.val ≤ 0x6F9)
  || (0x966 ≤ c.val && c.val ≤ 0x96F)
  || c.val = 0x2070 || (0x2074 ≤ c.val && c.val ≤ 0x2079)
  || (0x2080 ≤ c.val && c.val ≤ 0x2089)
  || (0xFF10 ≤ c.val && c.val ≤ 0xFF19)

/-- Python `str.isdigit()`: non-empty and every character a digit. -/
def pyIsDigitStr (s : String) : Bool :=
  !s.data.isEmpty && s.data.all pyIsDigitChar

/-! ### fan_out_by_storeid.py : header locator -/

/-- `STORE_ID_HEADERS` from `fan_out_by_storeid.py`. -/
def STORE_ID_HEADERS : List String := ["商店序號", "shopId", "Shop 商店序號", "ShopId"]

/-- The inner alias loop of `split_csv_file`: the first alias of
`STORE_ID_HEADERS` contained in the row, paired with `row.index(alias)`
(the first column holding that alias). -/
def findAliasIdx (row : Row) : Option Nat :=
  (STORE_ID_HEADERS.find? fun h => decide (h ∈ row)).map
    fun h => row.findIdx (· = h)

/-- Result of locating the header row of an input CSV. -/
structure HeaderLoc where
  prefixRows : List Row
  header : Row
  storeIdx : Nat
  dataRows : List Row
deriving Repr, DecidableEq

/-- Header-scanning loop of `split_csv_file`: rows before the first row
containing a store-id alias are accumulated as the preamble. -/
def findHeaderAux (acc : List Row) : List Row → Option HeaderLoc
  | [] => none
  | r :: rest =>
    match findAliasIdx r with
    | some i => some ⟨acc, r, i, rest⟩
    | none => findHeaderAux (acc ++ [r]) rest

/-- Locate the header row of an input CSV (lines 21–36 of
`fan_out_by_storeid.py`). -/
def findHeader (rows : List Row) : Option HeaderLoc := findHeaderAux [] rows

/-! ### fan_out_by_storeid.py : row normalization and filtering -/

/-- Store-id normalization (lines 43–50): strip whitespace, and when the
value ends with the literal suffix `.0` keep only the part before the
first dot. -/
def normalizeStoreId (raw : String) : String :=
  if endsWithDot0 raw then beforeFirstDot raw else raw

/-- The per-row filter of the strict partitioner (lines 40–57): `none`
when the row is discarded, `some sid` when its data is appended to the
store `sid`. -/
def rowStoreId (storeIdx : Nat) (row : Row) : Option String :=
  if h : storeIdx < row.length then
    let sid := normalizeStoreId (pyStrip (row.get ⟨storeIdx, h⟩))
    if sid = "" then none
    else if sid ∈ STORE_ID_HEADERS then none
    else if pyIsDigitStr sid then some sid
    else none
  else none

/-! ### Output-tree model

The output directory is an association list of store directories; each
directory is an association list of files; a file's content is its list
of CSV rows (a file that exists but has size 0 has content `[]`). -/

/-- A store directory: list of (file name, file rows). -/
abbrev DirFiles := List (String × List Row)

/-- The output tree: list of (directory name, directory files). -/
abbrev FS := List (String × DirFiles)

/-- Look up the first binding of a key in an association list. -/
def lookupBy {α : Type} : List (String × α) → String → Option α
  | [], _ => none
  | e :: rest, d => if e.1 = d then some e.2 else lookupBy rest d

/-- Set a file's content, creating it at the end of the directory when
absent (Python `open(path, ...)`). -/
def updFiles : DirFiles → String → List Row → DirFiles
  | [], f, c => [(f, c)]
  | e :: rest, f, c =>
    if e.1 = f then (e.1, c) :: rest else e :: updFiles rest f c

/-- Apply an update to the named directory's files (no-op when the
directory is absent). -/
def updDir : FS → String → (DirFiles → DirFiles) → FS
  | [], _, _ => []
  | e :: rest, d, upd =>
    if e.1 = d then (e.1, upd e.2) :: rest else e :: updDir rest d upd

/-- `os.makedirs(dir, exist_ok=True)`: create the directory (empty) when
absent. -/
def makedirs : FS → String → FS
  | [], d => [(d, [])]
  | e :: rest, d =>
    if e.1 = d then e :: rest else e :: makedirs rest d

/-- The names of the directories of the tree (`os.scandir` entries). -/
def dirNames (fs : FS) : List String := fs.map Prod.fst

/-- The content of file `f` inside directory `d`, when both exist. -/
def getFile (fs : FS) (d f : String) : Option (List Row) :=
  (lookupBy fs d).bind fun files => lookupBy files f

/-! ### fan_out_by_storeid.py : writing -/

/-- Append one data row to its store's file (lines 58–69): make the store
directory, write preamble and header first when the file is absent or
zero-length, then append the row. -/
def appendRowToStore (pre : List Row) (hdr : Row) (name : String)
    (fs : FS) (sid : String) (row : Row) : FS :=
  let fs1 := makedirs fs sid
  let newContent :=
    match getFile fs1 sid name with
    | none => pre ++ [hdr] ++ [row]
    | some [] => pre ++ [hdr] ++ [row]
    | some c => c ++ [row]
  updDir fs1 sid (fun files => updFiles files name newContent)

/-- The data-row loop of `split_csv_file` (lines 40–69), also tracking the
`written_store_ids` set (modelled as a duplicate-free list). -/
def processRows (pre : List Row) (hdr : Row) (name : String) (storeIdx : Nat) :
    List Row → FS → List String → FS × List String
  | [], fs, written => (fs, written)
  | r :: rest, fs, written =>
    match rowStoreId storeIdx r with
    | none => processRows pre hdr name storeIdx rest fs written
    | some sid =>
      processRows pre hdr name storeIdx rest
        (appendRowToStore pre hdr name fs sid r)
        (if sid ∈ written then written else written ++ [sid])

/-- The final fill pass of `split_csv_file` (lines 71–82): every store
directory outside `written` whose file named `name` does not exist gets a
header-only file. -/
def fillPass (pre : List Row) (hdr : Row) (name : String)
    (written : List String) : FS → FS
  | [] => []
  | e :: rest =>
    (if e.1 ∈ written then e
     else match lookupBy e.2 name with
       | some _ => e
       | none => (e.1, e.2 ++ [(name, pre ++ [hdr])])) ::
    fillPass pre hdr name written rest

/-- `split_csv_file(path, name, output_dir, encoding)` as a pure state
transformer on the output tree: `rows` is the parsed content of the input
CSV at `path`.  When no store-id header is located the tree is returned
unchanged (the file is skipped). -/
def splitCsvFile (name : String) (rows : List Row) (fs : FS) : FS :=
  match findHeader rows with
  | none => fs
  | some loc =>
    let (fs1, written) :=
      processRows loc.prefixRows loc.header name loc.storeIdx loc.dataRows fs []
    fillPass loc.prefixRows loc.header name written fs1

/-- The `main` loop of `fan_out_by_storeid.py`: process each input file
(name, parsed rows) in order against the same output tree. -/
def processFiles : List (String × List Row) → FS → FS
  | [], fs => fs
  | (n, rows) :: rest, fs => processFiles rest (splitCsvFile n rows fs)

/-- The data rows of an input file that the strict filter routes to store
`sid`. -/
def routedTo (storeIdx : Nat) (rows : List Row) (sid : String) : List Row :=
  rows.filter fun r => rowStoreId storeIdx r = some sid

/-- The store ids hit by at least one data row (with multiplicity). -/
def routedStores (storeIdx : Nat) (rows : List Row) : List String :=
  rows.filterMap (rowStoreId storeIdx)

/-! ### Lemmas about the tree operations -/

theorem lookupBy_append {α : Type} (l1 l2 : List (String × α)) (k : String) :
    lookupBy (l1 ++ l2) k =
      match lookupBy l1 k with
      | some v => some v
      | none => lookupBy l2 k := by
  induction l1 with
  | nil => simp [lookupBy]
  | cons e rest ih =>
    by_cases h : e.1 = k <;> simp [lookupBy, h, ih]

theorem lookupBy_updFiles (files : DirFiles) (f : String) (c : List Row)
    (g : String) :
    lookupBy (updFiles files f c) g =
      if f = g then some c else lookupBy files g := by
  induction files with
  | nil =>
    by_cases h : f = g <;> simp [updFiles, lookupBy, h]
  | cons e rest ih =>
    obtain ⟨k, v⟩ := e
    simp only [updFiles]
    by_cases h1 : k = f
    · subst h1
      by_cases h2 : k = g <;> simp [lookupBy, h2]
    · by_cases h2 : k = g
      · subst h2
        have hfg : ¬ f = k := fun h => h1 h.symm
        simp [lookupBy, h1, hfg]
      · simp [lookupBy, h1, h2, ih]

theorem lookupBy_updDir (fs : FS) (d : String) (upd : DirFiles → DirFiles)
    (e : String) :
    lookupBy (updDir fs d upd) e =
      if d = e then (lookupBy fs d).map upd else lookupBy fs e := by
  induction fs with
  | nil => by_cases h : d = e <;> simp [updDir, lookupBy, h]
  | cons x rest ih =>
    obtain ⟨k, v⟩ := x
    simp only [updDir]
    by_cases h1 : k = d
    · subst h1
      by_cases h2 : k = e <;> simp [lookupBy, h2]
    · by_cases h2 : k = e
      · subst h2
        have hde : ¬ d = k := fun h => h1 h.symm
        simp [lookupBy, h1, hde]
      · simp [lookupBy, h1, h2, ih]

theorem lookupBy_makedirs (fs : FS) (d e : String) :
    lookupBy (makedirs fs d) e =
      if d = e then some ((lookupBy fs d).getD []) else lookupBy fs e := by
  induction fs with
  | nil => by_cases h : d = e <;> simp [makedirs, lookupBy, h]
  | cons x rest ih =>
    obtain ⟨k, v⟩ := x
    simp only [makedirs]
    by_cases h1 : k = d
    · subst h1
      by_cases h2 : k = e <;> simp [lookupBy, h2]
    · by_cases h2 : k = e
      · subst h2
        have hde : ¬ d = k := fun h => h1 h.symm
        simp [lookupBy, h1, hde]
      · simp [lookupBy, h1, h2, ih]

theorem mem_dirNames_iff (fs : FS) (d : String) :
    d ∈ dirNames fs ↔ (lookupBy fs d).isSome := by
  induction fs with
  | nil => simp [dirNames, lookupBy]
  | cons x rest ih =>
    obtain ⟨k, v⟩ := x
    by_cases h : k = d
    · subst h
      simp [dirNames, lookupBy]
    · have hdk : ¬ d = k := fun hh => h hh.symm
      simp [dirNames, lookupBy, h, hdk] at ih ⊢
      exact ih

theorem dirNames_updDir (fs : FS) (d : String) (upd : DirFiles → DirFiles) :
    dirNames (updDir fs d upd) = dirNames fs := by
  induction fs with
  | nil => simp [updDir]
  | cons x rest ih =>
    obtain ⟨k, v⟩ := x
    by_cases h : k = d <;> [skip; skip] <;> simp [updDir, dirNames, h] at ih ⊢
    all_goals exact ih

theorem mem_dirNames_makedirs (fs : FS) (d e : String) :
    e ∈ dirNames (makedirs fs d) ↔ e ∈ dirNames fs ∨ e = d := by
  induction fs with
  | nil => simp [makedirs, dirNames]
  | cons x rest ih =>
    obtain ⟨k, v⟩ := x
    by_cases h : k = d
    · subst h
      simp [makedirs, dirNames]
      tauto
    · simp [makedirs, dirNames, h] at ih ⊢
      rw [ih]
      tauto

end TingETL

namespace TingETL

/-- The content file `name` ends with after the data rows `rs` routed to
its store are appended on top of initial content `c?` (fresh write of
preamble+header when absent or zero-length). -/
def appendedContent (pre : List Row) (hdr : Row) (c? : Option (List Row)) :
    List Row → Option (List Row)
  | [] => c?
  | rs =>
    match c? with
    | none => some (pre ++ [hdr] ++ rs)
    | some [] => some (pre ++ [hdr] ++ rs)
    | some c => some (c ++ rs)

theorem getFile_appendRowToStore_self (pre : List Row) (hdr : Row)
    (name : String) (fs : FS) (sid : String) (row : Row) :
    getFile (appendRowToStore pre hdr name fs sid row) sid name =
      appendedContent pre hdr (getFile fs sid name) [row] := by
  unfold appendRowToStore getFile
  rw [lookupBy_updDir]
  simp only [if_pos rfl, lookupBy_makedirs, if_pos rfl]
  cases hdir : lookupBy fs sid with
  | none =>
    simp only [Option.getD, Option.map, Option.bind, lookupBy_updFiles,
      if_pos rfl, appendedContent]
    simp [lookupBy]
  | some files =>
    simp only [Option.getD, Option.map, Option.bind, appendedContent]
    cases hfile : lookupBy files name with
    | none => simp [hfile, lookupBy_updFiles]
    | some c => cases c <;> simp [hfile, lookupBy_updFiles]

theorem getFile_appendRowToStore_ne (pre : List Row) (hdr : Row)
    (name : String) (fs : FS) (sid : String) (row : Row) (d f : String)
    (h : ¬ (d = sid ∧ f = name)) :
    getFile (appendRowToStore pre hdr name fs sid row) d f = getFile fs d f := by
  unfold appendRowToStore getFile
  rw [lookupBy_updDir]
  by_cases hd : sid = d
  · subst hd
    have hnf : ¬ name = f := fun hh => h ⟨rfl, hh.symm⟩
    rw [if_pos rfl, lookupBy_makedirs, if_pos rfl]
    cases hdir : lookupBy fs sid with
    | none => simp [lookupBy_updFiles, hnf, lookupBy]
    | some files => simp [lookupBy_updFiles, hnf]
  · rw [if_neg hd, lookupBy_makedirs, if_neg hd]

theorem mem_dirNames_appendRowToStore (pre : List Row) (hdr : Row)
    (name : String) (fs : FS) (sid : String) (row : Row) (e : String) :
    e ∈ dirNames (appendRowToStore pre hdr name fs sid row) ↔
      e ∈ dirNames fs ∨ e = sid := by
  unfold appendRowToStore
  rw [mem_dirNames_iff, lookupBy_updDir]
  by_cases hd : sid = e
  · subst hd
    simp [lookupBy_makedirs]
  · rw [if_neg hd, lookupBy_makedirs, if_neg hd, ← mem_dirNames_iff]
    simp only [iff_self_or]
    exact fun hh => absurd hh.symm hd

end TingETL

namespace TingETL

theorem appendedContent_some_ne_nil (pre : List Row) (hdr : Row)
    {c rs : List Row} (hc : c ≠ []) (hrs : rs ≠ []) :
    appendedContent pre hdr (some c) rs = some (c ++ rs) := by
  cases rs with
  | nil => exact absurd rfl hrs
  | cons a rs' =>
    cases c with
    | nil => exact absurd rfl hc
    | cons b c' => rfl

theorem appendedContent_cons (pre : List Row) (hdr : Row)
    (c? : Option (List Row)) (r : Row) (rs : List Row) :
    appendedContent pre hdr c? (r :: rs) =
      appendedContent pre hdr (appendedContent pre hdr c? [r]) rs := by
  cases rs with
  | nil =>
    cases c? with
    | none => rfl
    | some c => cases c <;> rfl
  | cons r2 rs2 =>
    have hne : (pre ++ [hdr] ++ [r] : List Row) ≠ [] := by simp
    cases c? with
    | none =>
      show some (pre ++ [hdr] ++ (r :: r2 :: rs2)) = _
      rw [show appendedContent pre hdr none [r] = some (pre ++ [hdr] ++ [r]) from rfl,
        appendedContent_some_ne_nil pre hdr hne (by simp)]
      simp
    | some c =>
      cases c with
      | nil =>
        show some (pre ++ [hdr] ++ (r :: r2 :: rs2)) = _
        rw [show appendedContent pre hdr (some []) [r] = some (pre ++ [hdr] ++ [r]) from rfl,
          appendedContent_some_ne_nil pre hdr hne (by simp)]
        simp
      | cons b c' =>
        show some ((b :: c') ++ (r :: r2 :: rs2)) = _
        rw [show appendedContent pre hdr (some (b :: c')) [r]
              = some ((b :: c') ++ [r]) from rfl,
          appendedContent_some_ne_nil pre hdr (by simp) (by simp)]
        simp

theorem routedTo_cons (i : Nat) (r : Row) (rest : List Row) (d : String) :
    routedTo i (r :: rest) d =
      if rowStoreId i r = some d then r :: routedTo i rest d
      else routedTo i rest d := by
  by_cases h : rowStoreId i r = some d <;> simp [routedTo, h]

theorem routedStores_cons (i : Nat) (r : Row) (rest : List Row) :
    routedStores i (r :: rest) =
      match rowStoreId i r with
      | none => routedStores i rest
      | some sid => sid :: routedStores i rest := by
  cases h : rowStoreId i r <;> simp [routedStores, List.filterMap_cons, h]

theorem processRows_getFile_ne (pre : List Row) (hdr : Row) (name : String)
    (i : Nat) (rows : List Row) :
    ∀ (fs : FS) (w : List String) (d f : String), f ≠ name →
      getFile (processRows pre hdr name i rows fs w).1 d f = getFile fs d f := by
  induction rows with
  | nil => intro fs w d f _; rfl
  | cons r rest ih =>
    intro fs w d f hf
    cases hr : rowStoreId i r with
    | none =>
      simp only [processRows, hr]
      exact ih fs w d f hf
    | some sid =>
      simp only [processRows, hr]
      rw [ih _ _ d f hf, getFile_appendRowToStore_ne]
      exact fun hc => hf hc.2

theorem processRows_getFile_name (pre : List Row) (hdr : Row) (name : String)
    (i : Nat) (rows : List Row) :
    ∀ (fs : FS) (w : List String) (d : String),
      getFile (processRows pre hdr name i rows fs w).1 d name =
        appendedContent pre hdr (getFile fs d name) (routedTo i rows d) := by
  induction rows with
  | nil => intro fs w d; rfl
  | cons r rest ih =>
    intro fs w d
    cases hr : rowStoreId i r with
    | none =>
      have hro : routedTo i (r :: rest) d = routedTo i rest d := by
        rw [routedTo_cons, if_neg (by simp [hr])]
      simp only [processRows, hr, hro, ih]
    | some sid =>
      by_cases hd : sid = d
      · subst hd
        have hro : routedTo i (r :: rest) sid = r :: routedTo i rest sid := by
          rw [routedTo_cons, if_pos hr]
        simp only [processRows, hr, hro]
        rw [ih, getFile_appendRowToStore_self, ← appendedContent_cons]
      · have hro : routedTo i (r :: rest) d = routedTo i rest d := by
          rw [routedTo_cons, if_neg (by simp [hr, hd])]
        simp only [processRows, hr, hro]
        rw [ih, getFile_appendRowToStore_ne]
        exact fun hc => hd hc.1.symm

theorem processRows_mem_dirNames (pre : List Row) (hdr : Row) (name : String)
    (i : Nat) (rows : List Row) :
    ∀ (fs : FS) (w : List String) (e : String),
      e ∈ dirNames (processRows pre hdr name i rows fs w).1 ↔
        e ∈ dirNames fs ∨ e ∈ routedStores i rows := by
  induction rows with
  | nil => intro fs w e; simp [processRows, routedStores]
  | cons r rest ih =>
    intro fs w e
    cases hr : rowStoreId i r with
    | none =>
      simp only [processRows, hr, routedStores_cons]
      exact ih fs w e
    | some sid =>
      simp only [processRows, hr, routedStores_cons]
      rw [ih, mem_dirNames_appendRowToStore]
      simp only [List.mem_cons]
      tauto

theorem processRows_mem_written (pre : List Row) (hdr : Row) (name : String)
    (i : Nat) (rows : List Row) :
    ∀ (fs : FS) (w : List String) (s : String),
      s ∈ (processRows pre hdr name i rows fs w).2 ↔
        s ∈ w ∨ s ∈ routedStores i rows := by
  induction rows with
  | nil => intro fs w s; simp [processRows, routedStores]
  | cons r rest ih =>
    intro fs w s
    cases hr : rowStoreId i r with
    | none =>
      simp only [processRows, hr, routedStores_cons]
      exact ih fs w s
    | some sid =>
      simp only [processRows, hr, routedStores_cons]
      rw [ih]
      by_cases hw : sid ∈ w
      · simp only [if_pos hw, List.mem_cons]
        constructor
        · tauto
        · rintro (h | h | h)
          · exact Or.inl h
          · exact Or.inl (h ▸ hw)
          · exact Or.inr h
      · simp only [if_neg hw, List.mem_append, List.mem_singleton, List.mem_cons]
        tauto

theorem fillPass_getFile (pre : List Row) (hdr : Row) (name : String)
    (w : List String) (fs : FS) (d f : String) :
    getFile (fillPass pre hdr name w fs) d f =
      match lookupBy fs d with
      | none => none
      | some files =>
        if d ∈ w then lookupBy files f
        else match lookupBy files name with
          | some _ => lookupBy files f
          | none => lookupBy (files ++ [(name, pre ++ [hdr])]) f := by
  induction fs with
  | nil => rfl
  | cons x rest ih =>
    by_cases hd : x.1 = d
    · by_cases hw : x.1 ∈ w
      · rw [hd] at hw
        simp [fillPass, getFile, lookupBy, hd, hw]
      · rw [hd] at hw
        cases hl : lookupBy x.2 name with
        | some c => simp [fillPass, getFile, lookupBy, hd, hw, hl]
        | none => simp [fillPass, getFile, lookupBy, hd, hw, hl]
    · by_cases hw : x.1 ∈ w
      · simpa [fillPass, getFile, lookupBy, hd, hw] using ih
      · cases hl : lookupBy x.2 name with
        | some c => simpa [fillPass, getFile, lookupBy, hd, hw, hl] using ih
        | none => simpa [fillPass, getFile, lookupBy, hd, hw, hl] using ih

theorem dirNames_fillPass (pre : List Row) (hdr : Row) (name : String)
    (w : List String) (fs : FS) :
    dirNames (fillPass pre hdr name w fs) = dirNames fs := by
  induction fs with
  | nil => rfl
  | cons x rest ih =>
    by_cases hw : x.1 ∈ w
    · simp [fillPass, dirNames, hw, ih, dirNames] at ih ⊢
      exact ih
    · cases hl : lookupBy x.2 name with
      | some c =>
        simp [fillPass, dirNames, hw, hl] at ih ⊢
        exact ih
      | none =>
        simp [fillPass, dirNames, hw, hl] at ih ⊢
        exact ih

end TingETL

namespace TingETL

/-! ### Header-locator characterization -/

theorem find?_eq_some_split {α : Type} {p : α → Bool} :
    ∀ {l : List α} {a : α}, l.find? p = some a →
      ∃ l1 l2, l = l1 ++ a :: l2 ∧ ∀ b ∈ l1, p b = false := by
  intro l
  induction l with
  | nil => intro a h; simp [List.find?] at h
  | cons x rest ih =>
    intro a h
    rw [List.find?_cons] at h
    cases hx : p x with
    | true =>
      rw [hx] at h
      simp only [Option.some.injEq] at h
      exact ⟨[], rest, by simp [h], by simp⟩
    | false =>
      rw [hx] at h
      obtain ⟨l1, l2, hsplit, hall⟩ := ih h
      refine ⟨x :: l1, l2, by simp [hsplit], ?_⟩
      intro b hb
      rcases List.mem_cons.mp hb with hb | hb
      · rw [hb]; exact hx
      · exact hall b hb

theorem findHeaderAux_some (rows : List Row) :
    ∀ (acc : List Row) (loc : HeaderLoc), findHeaderAux acc rows = some loc →
      (∃ pre2, loc.prefixRows = acc ++ pre2
        ∧ rows = pre2 ++ loc.header :: loc.dataRows
        ∧ ∀ r ∈ pre2, findAliasIdx r = none)
      ∧ findAliasIdx loc.header = some loc.storeIdx := by
  induction rows with
  | nil => intro acc loc h; simp [findHeaderAux] at h
  | cons r rest ih =>
    intro acc loc h
    unfold findHeaderAux at h
    cases hi : findAliasIdx r with
    | some i =>
      rw [hi] at h
      simp only [Option.some.injEq] at h
      subst h
      exact ⟨⟨[], by simp, by simp, by simp⟩, by simpa using hi⟩
    | none =>
      rw [hi] at h
      obtain ⟨⟨pre2, hpre, hrows, hall⟩, hh⟩ := ih (acc ++ [r]) loc h
      refine ⟨⟨r :: pre2, by simpa using hpre, by simp [hrows], ?_⟩, hh⟩
      intro x hx
      rcases List.mem_cons.mp hx with hx | hx
      · rw [hx]; exact hi
      · exact hall x hx

theorem findHeaderAux_none (rows : List Row) :
    ∀ acc, findHeaderAux acc rows = none → ∀ r ∈ rows, findAliasIdx r = none := by
  induction rows with
  | nil => intro acc _ r hr; simp at hr
  | cons x rest ih =>
    intro acc h r hr
    unfold findHeaderAux at h
    cases hi : findAliasIdx x with
    | some i => rw [hi] at h; simp at h
    | none =>
      rw [hi] at h
      rcases List.mem_cons.mp hr with hr | hr
      · rw [hr]; exact hi
      · exact ih (acc ++ [x]) h r hr

theorem findAliasIdx_eq_some {row : Row} {i : Nat}
    (h : findAliasIdx row = some i) :
    ∃ a, a ∈ STORE_ID_HEADERS ∧ a ∈ row
      ∧ (∃ l1 l2, STORE_ID_HEADERS = l1 ++ a :: l2 ∧ ∀ b ∈ l1, b ∉ row)
      ∧ i < row.length ∧ row.getD i "" = a ∧ ∀ j < i, row.getD j "" ≠ a := by
  unfold findAliasIdx at h
  cases hf : STORE_ID_HEADERS.find? (fun h => decide (h ∈ row)) with
  | none => rw [hf] at h; simp at h
  | some a =>
    rw [hf] at h
    simp only [Option.map_some', Option.some.injEq] at h
    have hmem : a ∈ row := by simpa using List.find?_some hf
    have hlt : row.findIdx (· = a) < row.length :=
      List.findIdx_lt_length_of_exists ⟨a, hmem, by simp⟩
    refine ⟨a, List.mem_of_find?_eq_some hf, hmem, ?_, ?_, ?_, ?_⟩
    · obtain ⟨l1, l2, hsplit, hall⟩ := find?_eq_some_split hf
      exact ⟨l1, l2, hsplit, fun b hb => by simpa using hall b hb⟩
    · exact h ▸ hlt
    · subst h
      have := @List.findIdx_getElem _ (fun x => decide (x = a)) row hlt
      simp only [decide_eq_true_eq] at this
      rw [List.getD_eq_getElem?_getD, List.getElem?_eq_getElem hlt]
      simpa using this
    · subst h
      intro j hj
      have hjlt : j < row.length := Nat.lt_trans hj hlt
      have := @List.not_of_lt_findIdx _ (fun x => decide (x = a)) row j hj
      simp only [decide_eq_false_iff_not] at this
      rw [List.getD_eq_getElem?_getD, List.getElem?_eq_getElem hjlt]
      simpa using this

theorem splitCsvFile_none {name : String} {rows : List Row} (fs : FS)
    (h : findHeader rows = none) : splitCsvFile name rows fs = fs := by
  unfold splitCsvFile
  rw [h]

theorem splitCsvFile_some {name : String} {rows : List Row} {loc : HeaderLoc}
    (fs : FS) (h : findHeader rows = some loc) :
    splitCsvFile name rows fs =
      fillPass loc.prefixRows loc.header name
        (processRows loc.prefixRows loc.header name loc.storeIdx
          loc.dataRows fs []).2
        (processRows loc.prefixRows loc.header name loc.storeIdx
          loc.dataRows fs []).1 := by
  unfold splitCsvFile
  rw [h]

end TingETL

namespace TingETL

/-! ### Character and normalization lemmas -/

theorem pyIsSpace_eq_false_of_isDigit {c : Char} (h : c.isDigit = true) :
    pyIsSpace c = false := by
  unfold Char.isDigit at h
  simp only [Bool.and_eq_true, decide_eq_true_eq] at h
  obtain ⟨v1, v2⟩ := h
  unfold pyIsSpace
  simp only [Bool.or_eq_false_iff, decide_eq_false_iff_not]
  refine ⟨⟨⟨⟨⟨?_, ?_⟩, ?_⟩, ?_⟩, ?_⟩, ?_⟩ <;>
    · intro hh
      subst hh
      revert v1 v2
      decide

theorem ne_dot_of_isDigit {c : Char} (h : c.isDigit = true) : ¬ c = '.' := by
  unfold Char.isDigit at h
  simp only [Bool.and_eq_true, decide_eq_true_eq] at h
  intro hh
  subst hh
  revert h
  decide

theorem pyIsDigitChar_of_isDigit {c : Char} (h : c.isDigit = true) :
    pyIsDigitChar c = true := by
  unfold Char.isDigit at h
  simp only [Bool.and_eq_true, decide_eq_true_eq] at h
  have h09 : (decide ('0' ≤ c) && decide (c ≤ '9')) = true := by
    simp only [Bool.and_eq_true, decide_eq_true_eq]
    exact ⟨Char.le_def.mpr h.1, Char.le_def.mpr h.2⟩
  unfold pyIsDigitChar
  rw [h09]
  simp

theorem dropWhile_pyIsSpace_eq_self {cs : List Char}
    (h : ∀ c ∈ cs, pyIsSpace c = false) : cs.dropWhile pyIsSpace = cs := by
  cases cs with
  | nil => rfl
  | cons c rest =>
    rw [List.dropWhile_cons, if_neg]
    simp [h c (by simp)]

theorem stripChars_eq_self {cs : List Char}
    (h : ∀ c ∈ cs, pyIsSpace c = false) : stripChars cs = cs := by
  unfold stripChars
  rw [dropWhile_pyIsSpace_eq_self h,
    dropWhile_pyIsSpace_eq_self (fun c hc => h c (List.mem_reverse.mp hc)),
    List.reverse_reverse]

theorem takeWhile_append_of_all {p : Char → Bool} :
    ∀ {l1 : List Char} {c : Char} {l2 : List Char},
      (∀ x ∈ l1, p x = true) → p c = false →
      (l1 ++ c :: l2).takeWhile p = l1 := by
  intro l1
  induction l1 with
  | nil =>
    intro c l2 _ hc
    simp [List.takeWhile_cons, hc]
  | cons x rest ih =>
    intro c l2 hall hc
    simp only [List.cons_append, List.takeWhile_cons, hall x (by simp),
      if_true]
    rw [ih (fun y hy => hall y (by simp [hy])) hc]

/-- A string of ASCII digits is never one of the configured header
aliases (each alias starts with a non-digit character). -/
theorem digits_not_alias {s : String} (hne : s ≠ "")
    (hdig : ∀ c ∈ s.data, c.isDigit = true) : s ∉ STORE_ID_HEADERS := by
  intro hmem
  have : s = "商店序號" ∨ s = "shopId" ∨ s = "Shop 商店序號" ∨ s = "ShopId" := by
    simpa [STORE_ID_HEADERS] using hmem
  rcases this with rfl | rfl | rfl | rfl
  · exact absurd (hdig '商' (by decide)) (by decide)
  · exact absurd (hdig 's' (by decide)) (by decide)
  · exact absurd (hdig 'S' (by decide)) (by decide)
  · exact absurd (hdig 'S' (by decide)) (by decide)

/-- On an all-digit string, `endswith(".0")` is false. -/
theorem endsWithDot0_eq_false_of_digits {s : String}
    (hdig : ∀ c ∈ s.data, c.isDigit = true) : endsWithDot0 s = false := by
  unfold endsWithDot0
  split
  · next c0 _ heq =>
    exfalso
    have h1 : '.' ∈ s.data.reverse := by rw [heq]; simp
    exact ne_dot_of_isDigit (hdig '.' (List.mem_reverse.mp h1)) rfl
  · rfl

theorem rowStoreId_of_ge {i : Nat} {row : Row} (h : row.length ≤ i) :
    rowStoreId i row = none := by
  unfold rowStoreId
  rw [dif_neg (by omega)]

theorem rowStoreId_some_props {i : Nat} {row : Row} {sid : String}
    (h : rowStoreId i row = some sid) :
    sid ≠ "" ∧ sid ∉ STORE_ID_HEADERS ∧ pyIsDigitStr sid = true
      ∧ i < row.length
      ∧ sid = normalizeStoreId (pyStrip (row.getD i "")) := by
  unfold rowStoreId at h
  split at h
  · next hlt =>
    simp only at h
    split at h
    · exact absurd h (by simp)
    · next h1 =>
      split at h
      · exact absurd h (by simp)
      · next h2 =>
        split at h
        · next h3 =>
          simp only [Option.some.injEq] at h
          subst h
          refine ⟨h1, h2, h3, hlt, ?_⟩
          rw [List.getD_eq_getElem?_getD, List.getElem?_eq_getElem hlt]
          rfl
        · exact absurd h (by simp)
  · exact absurd h (by simp)

end TingETL

namespace TingETL

theorem data_ne_nil_of_ne_empty {s : String} (h : s ≠ "") : s.data ≠ [] := by
  intro hd
  exact h (String.ext hd)

theorem pyStrip_digits {s : String}
    (hdig : ∀ c ∈ s.data, c.isDigit = true) : pyStrip s = s := by
  unfold pyStrip
  rw [stripChars_eq_self
    (fun c hc => pyIsSpace_eq_false_of_isDigit (hdig c hc))]

theorem pyIsDigitStr_of_digits {s : String} (hne : s ≠ "")
    (hdig : ∀ c ∈ s.data, c.isDigit = true) : pyIsDigitStr s = true := by
  unfold pyIsDigitStr
  cases hd : s.data with
  | nil => exact absurd (String.ext hd) hne
  | cons a l =>
    simp only [List.isEmpty_cons, Bool.not_false, Bool.true_and, List.all_eq_true]
    intro c hc
    exact pyIsDigitChar_of_isDigit (hdig c (hd ▸ hc))

theorem rowStoreId_eval {i : Nat} {row : Row} (h : i < row.length) :
    rowStoreId i row =
      (if normalizeStoreId (pyStrip (row.get ⟨i, h⟩)) = "" then none
       else if normalizeStoreId (pyStrip (row.get ⟨i, h⟩)) ∈ STORE_ID_HEADERS then none
       else if pyIsDigitStr (normalizeStoreId (pyStrip (row.get ⟨i, h⟩))) then
         some (normalizeStoreId (pyStrip (row.get ⟨i, h⟩)))
       else none) := by
  unfold rowStoreId
  rw [dif_pos h]

theorem normalizeStoreId_digits {s : String}
    (hdig : ∀ c ∈ s.data, c.isDigit = true) : normalizeStoreId s = s := by
  unfold normalizeStoreId
  rw [endsWithDot0_eq_false_of_digits hdig]
  simp

/-- The filter accepts a plain ASCII-digit string as itself. -/
theorem filter_accepts_digits {s : String} (hne : s ≠ "")
    (hdig : ∀ c ∈ s.data, c.isDigit = true) :
    (if s = "" then none
     else if s ∈ STORE_ID_HEADERS then none
     else if pyIsDigitStr s then some s else none) = some s := by
  rw [if_neg hne, if_neg (digits_not_alias hne hdig),
    if_pos (pyIsDigitStr_of_digits hne hdig)]

theorem dot0_data (s : String) : (s ++ ".0").data = s.data ++ ['.', '0'] := by
  rw [String.data_append]

theorem pyStrip_digits_dot0 {s : String}
    (hdig : ∀ c ∈ s.data, c.isDigit = true) :
    pyStrip (s ++ ".0") = s ++ ".0" := by
  unfold pyStrip
  rw [dot0_data, stripChars_eq_self, ← dot0_data]
  intro c hc
  rcases List.mem_append.mp hc with hc | hc
  · exact pyIsSpace_eq_false_of_isDigit (hdig c hc)
  · rcases List.mem_cons.mp hc with rfl | hc
    · decide
    · rcases List.mem_singleton.mp hc with rfl
      decide

theorem endsWithDot0_dot0 (s : String) : endsWithDot0 (s ++ ".0") = true := by
  unfold endsWithDot0
  rw [dot0_data]
  simp

theorem beforeFirstDot_digits_dot0 {s : String}
    (hdig : ∀ c ∈ s.data, c.isDigit = true) : beforeFirstDot (s ++ ".0") = s := by
  unfold beforeFirstDot
  rw [dot0_data]
  have : (s.data ++ ['.', '0']).takeWhile (fun c => decide (c ≠ '.')) = s.data := by
    have := @takeWhile_append_of_all (fun c => decide (c ≠ '.')) s.data '.' ['0']
      (fun x hx => by simp [ne_dot_of_isDigit (hdig x hx)]) (by decide)
    simpa using this
  rw [show ((fun c => c ≠ '.') : Char → Bool) = fun c => decide (c ≠ '.') from rfl,
    this]

theorem normalizeStoreId_digits_dot0 {s : String}
    (hdig : ∀ c ∈ s.data, c.isDigit = true) :
    normalizeStoreId (s ++ ".0") = s := by
  unfold normalizeStoreId
  rw [endsWithDot0_dot0, if_pos rfl, beforeFirstDot_digits_dot0 hdig]

end TingETL

namespace TingETL

theorem pyStrip_spaces_dot0 {s : String} (hne : s ≠ "")
    (hdig : ∀ c ∈ s.data, c.isDigit = true) :
    pyStrip (" " ++ s ++ ".0 ") = s ++ ".0" := by
  cases hd : s.data with
  | nil => exact absurd (String.ext hd) hne
  | cons a l =>
    have ha : pyIsSpace a = false :=
      pyIsSpace_eq_false_of_isDigit (hdig a (by rw [hd]; simp))
    have hdata : (" " ++ s ++ ".0 ").data = ' ' :: a :: (l ++ ['.', '0', ' ']) := by
      rw [String.data_append, String.data_append, hd]
      simp
    apply String.ext
    rw [dot0_data, hd]
    unfold pyStrip stripChars
    rw [hdata]
    rw [List.dropWhile_cons, if_pos (by decide)]
    rw [List.dropWhile_cons, if_neg (by simp [ha])]
    have hrev : (a :: (l ++ ['.', '0', ' '])).reverse
        = ' ' :: '0' :: '.' :: (l.reverse ++ [a]) := by simp
    rw [hrev]
    rw [List.dropWhile_cons, if_pos (by decide)]
    rw [List.dropWhile_cons, if_neg (by decide)]
    simp

theorem rowStoreId_singleton (s : String) :
    rowStoreId 0 [s] =
      (if normalizeStoreId (pyStrip s) = "" then none
       else if normalizeStoreId (pyStrip s) ∈ STORE_ID_HEADERS then none
       else if pyIsDigitStr (normalizeStoreId (pyStrip s)) then
         some (normalizeStoreId (pyStrip s))
       else none) := by
  rw [rowStoreId_eval (by simp)]
  rfl

theorem rowStoreId_digit_variants {s : String} (hne : s ≠ "")
    (hdig : ∀ c ∈ s.data, c.isDigit = true) :
    rowStoreId 0 [s] = some s
    ∧ rowStoreId 0 [s ++ ".0"] = some s
    ∧ rowStoreId 0 [" " ++ s ++ ".0 "] = some s := by
  refine ⟨?_, ?_, ?_⟩
  · rw [rowStoreId_singleton]
    rw [pyStrip_digits hdig, normalizeStoreId_digits hdig]
    exact filter_accepts_digits hne hdig
  · rw [rowStoreId_singleton]
    rw [pyStrip_digits_dot0 hdig, normalizeStoreId_digits_dot0 hdig]
    exact filter_accepts_digits hne hdig
  · rw [rowStoreId_singleton]
    rw [pyStrip_spaces_dot0 hne hdig, normalizeStoreId_digits_dot0 hdig]
    exact filter_accepts_digits hne hdig

end TingETL

namespace TingETL

/-- C3: the partitioner trims the store-identifier cell and drops a
trailing `.0` (and everything from the decimal point on), so `"40316.0"`
and `"40316"` rows of one input file land in the same directory `40316`:
the general normalization facts for any ASCII-digit identifier, plus the
concrete two-row file showing both spellings appended to one directory. -/
theorem claim_C3 :
    (∀ s : String, s ≠ "" → (∀ c ∈ s.data, c.isDigit = true) →
      rowStoreId 0 [s] = some s
      ∧ rowStoreId 0 [s ++ ".0"] = some s
      ∧ rowStoreId 0 [" " ++ s ++ ".0 "] = some s)
    ∧ getFile (splitCsvFile "r.csv" [["商店序號"], ["40316.0"], ["40316"]] [])
        "40316" "r.csv" = some [["商店序號"], ["40316.0"], ["40316"]]
    ∧ dirNames (splitCsvFile "r.csv" [["商店序號"], ["40316.0"], ["40316"]] [])
        = ["40316"] := by
  refine ⟨?_, by decide, by decide⟩
  intro s hne hdig
  exact rowStoreId_digit_variants hne hdig

/-- C3 witness: the general part of `claim_C3` applied at the concrete
identifier `"40316"`. -/
theorem claim_C3_witness :
    rowStoreId 0 ["40316"] = some "40316"
    ∧ rowStoreId 0 ["40316" ++ ".0"] = some "40316"
    ∧ rowStoreId 0 [" " ++ "40316" ++ ".0 "] = some "40316" :=
  claim_C3.1 "40316" (by decide) (by decide)

/-- Modelled from the spec: "a plain digit string" / an identifier that
"consists entirely of ASCII digits" — non-empty and all characters in
`0`–`9`. -/
def specPlainDigitString (s : String) : Prop :=
  s ≠ "" ∧ ∀ c ∈ s.data, c.isDigit = true

/-- C4 counterexample: the code checks Python `str.isdigit`, which also
accepts non-ASCII digit characters: the row `["²"]` (U+00B2, SUPERSCRIPT
TWO) is not discarded — it is routed to store `"²"` and creates the
directory `"²"`, whose name is not a plain ASCII digit string. -/
theorem claim_C4_counterexample :
    rowStoreId 0 ["²"] = some "²"
    ∧ "²" ∈ dirNames (splitCsvFile "n.csv" [["商店序號"], ["²"]] [])
    ∧ ¬ specPlainDigitString "²" := by
  refine ⟨by decide, by decide, ?_⟩
  intro h
  exact absurd (h.2 '²' (by decide)) (by decide)

/-- C4 (amended): a data row is written only if its normalized identifier
is non-empty, passes Python `str.isdigit` (Unicode digit characters, not
only ASCII digits), and equals no configured header alias; rows that are
too short, or whose identifier is empty, not `isdigit`, or alias-equal,
are discarded without touching the tree — so every store directory the
run creates has a non-empty, non-alias, `isdigit`-true name. -/
theorem claim_C4 :
    (∀ (name : String) (rows : List Row) (fs : FS) (d : String),
      d ∈ dirNames (splitCsvFile name rows fs) →
      d ∈ dirNames fs
      ∨ (d ≠ "" ∧ d ∉ STORE_ID_HEADERS ∧ pyIsDigitStr d = true))
    ∧ (∀ (i : Nat) (row : Row), row.length ≤ i → rowStoreId i row = none)
    ∧ (∀ (i : Nat) (row : Row) (sid : String), rowStoreId i row = some sid →
        sid ≠ "" ∧ sid ∉ STORE_ID_HEADERS ∧ pyIsDigitStr sid = true)
    ∧ (∀ (pre : List Row) (hdr r : Row) (name : String) (i : Nat)
        (rest : List Row) (fs : FS) (w : List String),
        rowStoreId i r = none →
        processRows pre hdr name i (r :: rest) fs w =
          processRows pre hdr name i rest fs w) := by
  refine ⟨?_, ?_, ?_, ?_⟩
  · intro name rows fs d hd
    cases hh : findHeader rows with
    | none =>
      rw [splitCsvFile_none fs hh] at hd
      exact Or.inl hd
    | some loc =>
      rw [splitCsvFile_some fs hh, dirNames_fillPass] at hd
      rcases (processRows_mem_dirNames _ _ _ _ _ _ _ _).mp hd with hd | hd
      · exact Or.inl hd
      · obtain ⟨r, _, hr⟩ := List.mem_filterMap.mp hd
        obtain ⟨h1, h2, h3, _⟩ := rowStoreId_some_props hr
        exact Or.inr ⟨h1, h2, h3⟩
  · intro i row h
    exact rowStoreId_of_ge h
  · intro i row sid h
    obtain ⟨h1, h2, h3, _⟩ := rowStoreId_some_props h
    exact ⟨h1, h2, h3⟩
  · intro pre hdr r name i rest fs w h
    simp only [processRows, h]

/-- C4 witness: the conjuncts of `claim_C4` applied at concrete inputs:
the directory created by a concrete run, a short row, an accepted row,
and a discarded empty-identifier row. -/
theorem claim_C4_witness :
    (("7" : String) ∈ dirNames ([("8", [])] : FS)
      ∨ ("7" ≠ "" ∧ "7" ∉ STORE_ID_HEADERS ∧ pyIsDigitStr "7" = true))
    ∧ rowStoreId 3 ["a", "b"] = none
    ∧ ("55" ≠ "" ∧ "55" ∉ STORE_ID_HEADERS ∧ pyIsDigitStr "55" = true)
    ∧ processRows [] ["商店序號"] "n.csv" 0 [[" "], ["9"]] [] [] =
        processRows [] ["商店序號"] "n.csv" 0 [["9"]] [] [] :=
  ⟨claim_C4.1 "n.csv" [["商店序號"], ["7"]] [("8", [])] "7" (by decide),
   claim_C4.2.1 3 ["a", "b"] (by decide),
   claim_C4.2.2.1 0 ["55"] "55" (by decide),
   claim_C4.2.2.2 [] ["商店序號"] [" "] "n.csv" 0 [["9"]] [] [] (by decide)⟩

end TingETL

namespace TingETL

theorem findAliasIdx_eq_none {row : Row} :
    findAliasIdx row = none ↔ ∀ a ∈ STORE_ID_HEADERS, a ∉ row := by
  unfold findAliasIdx
  simp [Option.map_eq_none', List.find?_eq_none]

/-- C5: scanning a CSV from its first row, the first row containing any
configured alias is the header row and all earlier rows are the preamble,
in order; the column index used is that of the first alias in the
configured priority list that appears in the row (its first column), not
the leftmost alias column — witnessed by a header where `ShopId` sits at
column 1 but `商店序號` at column 2 is chosen; a file with no alias row
leaves the tree unchanged and the remaining input files continue to be
processed. -/
theorem claim_C5 :
    (∀ (rows : List Row) (loc : HeaderLoc), findHeader rows = some loc →
      rows = loc.prefixRows ++ loc.header :: loc.dataRows
      ∧ (∀ r ∈ loc.prefixRows, ∀ a ∈ STORE_ID_HEADERS, a ∉ r)
      ∧ ∃ a, a ∈ STORE_ID_HEADERS ∧ a ∈ loc.header
          ∧ (∃ l1 l2, STORE_ID_HEADERS = l1 ++ a :: l2
              ∧ ∀ b ∈ l1, b ∉ loc.header)
          ∧ loc.storeIdx < loc.header.length
          ∧ loc.header.getD loc.storeIdx "" = a
          ∧ (∀ j < loc.storeIdx, loc.header.getD j "" ≠ a))
    ∧ (findHeader [["x", "ShopId", "商店序號", "y"]]).map HeaderLoc.storeIdx
        = some 2
    ∧ (∀ (name : String) (rows : List Row) (fs : FS),
        findHeader rows = none → splitCsvFile name rows fs = fs)
    ∧ (∀ (name : String) (rows : List Row)
        (rest : List (String × List Row)) (fs : FS),
        findHeader rows = none →
        processFiles ((name, rows) :: rest) fs = processFiles rest fs) := by
  refine ⟨?_, by decide, ?_, ?_⟩
  · intro rows loc h
    obtain ⟨⟨pre2, hpre, hrows, hall⟩, hh⟩ := findHeaderAux_some rows [] loc h
    have hpre' : loc.prefixRows = pre2 := by simpa using hpre
    rw [← hpre'] at hrows hall
    refine ⟨hrows, ?_, ?_⟩
    · intro r hr a ha
      exact (findAliasIdx_eq_none.mp (hall r hr)) a ha
    · exact findAliasIdx_eq_some hh
  · intro name rows fs h
    exact splitCsvFile_none fs h
  · intro name rows rest fs h
    show processFiles rest (splitCsvFile name rows fs) = processFiles rest fs
    rw [splitCsvFile_none fs h]

/-- C5 witness: `claim_C5` applied at a concrete file with one preamble
row and at a concrete header-less file. -/
theorem claim_C5_witness :
    ([["t"], ["x", "ShopId", "商店序號", "y"], ["9", "8", "7", "6"]] : List Row)
      = [["t"]] ++ ["x", "ShopId", "商店序號", "y"] :: [["9", "8", "7", "6"]]
    ∧ splitCsvFile "n.csv" [["junk"]] [("5", [])] = [("5", [])]
    ∧ processFiles [("n.csv", [["junk"]])] [("5", [])] =
        processFiles [] [("5", [])] :=
  ⟨(claim_C5.1 [["t"], ["x", "ShopId", "商店序號", "y"], ["9", "8", "7", "6"]]
      ⟨[["t"]], ["x", "ShopId", "商店序號", "y"], 2, [["9", "8", "7", "6"]]⟩
      (by decide)).1,
   claim_C5.2.2.1 "n.csv" [["junk"]] [("5", [])] (by decide),
   claim_C5.2.2.2 "n.csv" [["junk"]] [] [("5", [])] (by decide)⟩

end TingETL

namespace TingETL

theorem getFile_eq_lookup {fs : FS} {d : String} {files : DirFiles}
    (h : lookupBy fs d = some files) (f : String) :
    getFile fs d f = lookupBy files f := by
  simp [getFile, h]

theorem fillPass_getFile_written {pre : List Row} {hdr : Row} {name : String}
    {w : List String} {fs : FS} {d : String} {files : DirFiles}
    (h : lookupBy fs d = some files) (hw : d ∈ w) (f : String) :
    getFile (fillPass pre hdr name w fs) d f = lookupBy files f := by
  rw [fillPass_getFile, h]
  simp [hw]

theorem fillPass_getFile_found {pre : List Row} {hdr : Row} {name : String}
    {w : List String} {fs : FS} {d : String} {files : DirFiles} {c : List Row}
    (h : lookupBy fs d = some files) (hw : d ∉ w)
    (hl : lookupBy files name = some c) (f : String) :
    getFile (fillPass pre hdr name w fs) d f = lookupBy files f := by
  rw [fillPass_getFile, h]
  simp [hw, hl]

theorem fillPass_getFile_missing {pre : List Row} {hdr : Row} {name : String}
    {w : List String} {fs : FS} {d : String} {files : DirFiles}
    (h : lookupBy fs d = some files) (hw : d ∉ w)
    (hl : lookupBy files name = none) (f : String) :
    getFile (fillPass pre hdr name w fs) d f =
      lookupBy (files ++ [(name, pre ++ [hdr])]) f := by
  rw [fillPass_getFile, h]
  simp [hw, hl]

theorem fillPass_getFile_nodir {pre : List Row} {hdr : Row} {name : String}
    {w : List String} {fs : FS} {d : String}
    (h : lookupBy fs d = none) (f : String) :
    getFile (fillPass pre hdr name w fs) d f = none := by
  rw [fillPass_getFile, h]

theorem mem_routedStores_iff {i : Nat} {rows : List Row} {d : String} :
    d ∈ routedStores i rows ↔ routedTo i rows d ≠ [] := by
  unfold routedStores routedTo
  rw [List.mem_filterMap]
  constructor
  · rintro ⟨r, hr, hrd⟩ hnil
    have hmem : r ∈ rows.filter fun r => decide (rowStoreId i r = some d) :=
      List.mem_filter.mpr ⟨hr, by simp [hrd]⟩
    rw [hnil] at hmem
    simp at hmem
  · intro hne
    obtain ⟨r, hr⟩ := List.exists_mem_of_ne_nil _ hne
    have hm := List.mem_filter.mp hr
    exact ⟨r, hm.1, by simpa using hm.2⟩

theorem appendedContent_exists_of_ne_nil (pre : List Row) (hdr : Row)
    (c? : Option (List Row)) {rs : List Row} (h : rs ≠ []) :
    ∃ c, appendedContent pre hdr c? rs = some c := by
  cases rs with
  | nil => exact absurd rfl h
  | cons a rs' =>
    cases c? with
    | none => exact ⟨_, rfl⟩
    | some c => cases c <;> exact ⟨_, rfl⟩

theorem appendedContent_fresh (pre : List Row) (hdr : Row)
    {c? : Option (List Row)} {rs : List Row} (h : rs ≠ [])
    (hc : c? = none ∨ c? = some []) :
    appendedContent pre hdr c? rs = some (pre ++ [hdr] ++ rs) := by
  cases rs with
  | nil => exact absurd rfl h
  | cons a rs' =>
    rcases hc with rfl | rfl <;> rfl

/-- C1: after `split_csv_file` on a file named `name` whose store-id
header was located, every store directory of the resulting tree contains
a file named `name`; a store that received data rows and whose file was
absent or zero-length holds preamble ++ header ++ its data rows; a
pre-existing store directory that received no rows and had no file
`name` gets a header-only file (preamble ++ header, zero data rows). -/
theorem claim_C1 (name : String) (rows : List Row) (fs : FS)
    (loc : HeaderLoc) (hloc : findHeader rows = some loc) :
    (∀ d ∈ dirNames (splitCsvFile name rows fs),
      ∃ c, getFile (splitCsvFile name rows fs) d name = some c)
    ∧ (∀ d, routedTo loc.storeIdx loc.dataRows d ≠ [] →
        (getFile fs d name = none ∨ getFile fs d name = some []) →
        getFile (splitCsvFile name rows fs) d name =
          some (loc.prefixRows ++ [loc.header]
            ++ routedTo loc.storeIdx loc.dataRows d))
    ∧ (∀ d ∈ dirNames fs, routedTo loc.storeIdx loc.dataRows d = [] →
        getFile fs d name = none →
        getFile (splitCsvFile name rows fs) d name =
          some (loc.prefixRows ++ [loc.header])) := by
  rw [splitCsvFile_some fs hloc]
  set pr := processRows loc.prefixRows loc.header name loc.storeIdx
    loc.dataRows fs [] with hpr
  refine ⟨?_, ?_, ?_⟩
  · intro d hd
    rw [dirNames_fillPass] at hd
    obtain ⟨files, hfiles⟩ :=
      Option.isSome_iff_exists.mp ((mem_dirNames_iff _ _).mp hd)
    by_cases hw : d ∈ pr.2
    · rw [fillPass_getFile_written hfiles hw]
      have hrt : routedTo loc.storeIdx loc.dataRows d ≠ [] := by
        rcases (processRows_mem_written _ _ _ _ _ _ _ _).mp hw with h | h
        · simp at h
        · exact mem_routedStores_iff.mp h
      obtain ⟨c, hc⟩ := appendedContent_exists_of_ne_nil loc.prefixRows
        loc.header (getFile fs d name) hrt
      refine ⟨c, ?_⟩
      rw [← getFile_eq_lookup hfiles name, hpr,
        processRows_getFile_name, hc]
    · cases hl : lookupBy files name with
      | some c =>
        rw [fillPass_getFile_found hfiles hw hl]
        exact ⟨c, hl⟩
      | none =>
        rw [fillPass_getFile_missing hfiles hw hl]
        refine ⟨loc.prefixRows ++ [loc.header], ?_⟩
        rw [lookupBy_append, hl]
        simp [lookupBy]
  · intro d hne hfresh
    have hwr : d ∈ pr.2 := by
      rw [processRows_mem_written]
      exact Or.inr (mem_routedStores_iff.mpr hne)
    have hdn : d ∈ dirNames pr.1 := by
      rw [processRows_mem_dirNames]
      exact Or.inr (mem_routedStores_iff.mpr hne)
    obtain ⟨files, hfiles⟩ :=
      Option.isSome_iff_exists.mp ((mem_dirNames_iff _ _).mp hdn)
    rw [fillPass_getFile_written hfiles hwr, ← getFile_eq_lookup hfiles name,
      hpr, processRows_getFile_name,
      appendedContent_fresh _ _ hne hfresh]
  · intro d hd hrt hnone
    have hdn : d ∈ dirNames pr.1 := by
      rw [processRows_mem_dirNames]
      exact Or.inl hd
    have hw : d ∉ pr.2 := by
      rw [processRows_mem_written]
      rintro (h | h)
      · simp at h
      · exact (mem_routedStores_iff.mp h) hrt
    obtain ⟨files, hfiles⟩ :=
      Option.isSome_iff_exists.mp ((mem_dirNames_iff _ _).mp hdn)
    have hlf : lookupBy files name = none := by
      rw [← getFile_eq_lookup hfiles name, hpr,
        processRows_getFile_name, hrt]
      exact hnone
    rw [fillPass_getFile_missing hfiles hw hlf, lookupBy_append, hlf]
    simp [lookupBy]

/-- C1 witness: `claim_C1` on the concrete file `a.csv` routing one row
to store `7`, against a tree already holding an (empty) store `8`. -/
theorem claim_C1_witness :
    (∃ c, getFile (splitCsvFile "a.csv" [["商店序號"], ["7"]] [("8", [])])
      "8" "a.csv" = some c)
    ∧ getFile (splitCsvFile "a.csv" [["商店序號"], ["7"]] [("8", [])])
        "7" "a.csv" = some ([] ++ [["商店序號"]] ++ routedTo 0 [["7"]] "7")
    ∧ getFile (splitCsvFile "a.csv" [["商店序號"], ["7"]] [("8", [])])
        "8" "a.csv" = some ([] ++ [["商店序號"]]) := by
  have h := claim_C1 "a.csv" [["商店序號"], ["7"]] [("8", [])]
    ⟨[], ["商店序號"], 0, [["7"]]⟩ (by decide)
  exact ⟨h.1 "8" (by decide), h.2.1 "7" (by decide) (Or.inl (by decide)),
    h.2.2 "8" (by decide) (by decide) (by decide)⟩

end TingETL

namespace TingETL

theorem appendedContent_some_append (pre : List Row) (hdr : Row)
    {c : List Row} (hc : c ≠ []) (rs : List Row) :
    appendedContent pre hdr (some c) rs = some (c ++ rs) := by
  cases rs with
  | nil => simp [appendedContent]
  | cons a rs' => exact appendedContent_some_ne_nil pre hdr hc (by simp)

theorem getFile_some_elim {fs : FS} {d f : String} {c : List Row}
    (h : getFile fs d f = some c) :
    ∃ files, lookupBy fs d = some files ∧ lookupBy files f = some c := by
  cases hd : lookupBy fs d with
  | none => simp [getFile, hd] at h
  | some files => exact ⟨files, rfl, by rwa [getFile_eq_lookup hd] at h⟩

theorem fillPass_getFile_ne {pre : List Row} {hdr : Row} {name : String}
    {w : List String} (fs : FS) {d f : String} (hf : f ≠ name) :
    getFile (fillPass pre hdr name w fs) d f = getFile fs d f := by
  cases hdir : lookupBy fs d with
  | none =>
    rw [fillPass_getFile_nodir hdir]
    simp [getFile, hdir]
  | some files =>
    rw [getFile_eq_lookup hdir]
    by_cases hw : d ∈ w
    · rw [fillPass_getFile_written hdir hw]
    · cases hl : lookupBy files name with
      | some c => rw [fillPass_getFile_found hdir hw hl]
      | none =>
        rw [fillPass_getFile_missing hdir hw hl, lookupBy_append]
        cases hff : lookupBy files f with
        | some v => simp
        | none =>
          simp only [lookupBy]
          rw [if_neg (fun hh => hf hh.symm)]

/-- C10: one invocation of the per-file routine on input `name` touches
only files named `name`: every file with a different basename keeps its
exact content; a pre-existing file `name` in a store that received no
rows is unchanged; a non-empty pre-existing file `name` only has the
store's routed rows appended; and no file `name` appears in a directory
that did not already exist and received no rows. -/
theorem claim_C10 (name : String) (rows : List Row) (fs : FS) :
    (∀ d f, f ≠ name →
      getFile (splitCsvFile name rows fs) d f = getFile fs d f)
    ∧ (∀ loc, findHeader rows = some loc →
        (∀ d c, getFile fs d name = some c →
          routedTo loc.storeIdx loc.dataRows d = [] →
          getFile (splitCsvFile name rows fs) d name = some c)
        ∧ (∀ d c, getFile fs d name = some c → c ≠ [] →
            getFile (splitCsvFile name rows fs) d name =
              some (c ++ routedTo loc.storeIdx loc.dataRows d))
        ∧ (∀ d, d ∉ dirNames fs →
            routedTo loc.storeIdx loc.dataRows d = [] →
            getFile (splitCsvFile name rows fs) d name = none)) := by
  constructor
  · intro d f hf
    cases hh : findHeader rows with
    | none => rw [splitCsvFile_none fs hh]
    | some loc =>
      rw [splitCsvFile_some fs hh, fillPass_getFile_ne _ hf,
        processRows_getFile_ne _ _ _ _ _ _ _ d f hf]
  · intro loc hloc
    rw [splitCsvFile_some fs hloc]
    set pr := processRows loc.prefixRows loc.header name loc.storeIdx
      loc.dataRows fs [] with hpr
    refine ⟨?_, ?_, ?_⟩
    · intro d c hc hrt
      obtain ⟨files0, hdir0, _⟩ := getFile_some_elim hc
      have hdn : d ∈ dirNames pr.1 := by
        rw [processRows_mem_dirNames]
        exact Or.inl ((mem_dirNames_iff fs d).mpr (by simp [hdir0]))
      have hw : d ∉ pr.2 := by
        rw [processRows_mem_written]
        rintro (h | h)
        · simp at h
        · exact (mem_routedStores_iff.mp h) hrt
      obtain ⟨files, hfiles⟩ :=
        Option.isSome_iff_exists.mp ((mem_dirNames_iff _ _).mp hdn)
      have hl : lookupBy files name = some c := by
        rw [← getFile_eq_lookup hfiles name, hpr,
          processRows_getFile_name, hrt]
        exact hc
      rw [fillPass_getFile_found hfiles hw hl]
      exact hl
    · intro d c hc hcne
      obtain ⟨files0, hdir0, _⟩ := getFile_some_elim hc
      have hdn : d ∈ dirNames pr.1 := by
        rw [processRows_mem_dirNames]
        exact Or.inl ((mem_dirNames_iff fs d).mpr (by simp [hdir0]))
      obtain ⟨files, hfiles⟩ :=
        Option.isSome_iff_exists.mp ((mem_dirNames_iff _ _).mp hdn)
      have hl : lookupBy files name =
          some (c ++ routedTo loc.storeIdx loc.dataRows d) := by
        rw [← getFile_eq_lookup hfiles name, hpr,
          processRows_getFile_name, hc,
          appendedContent_some_append _ _ hcne]
      by_cases hw : d ∈ pr.2
      · rw [fillPass_getFile_written hfiles hw]
        exact hl
      · rw [fillPass_getFile_found hfiles hw hl]
        exact hl
    · intro d hd hrt
      have hdn : d ∉ dirNames pr.1 := by
        rw [processRows_mem_dirNames]
        rintro (h | h)
        · exact hd h
        · exact (mem_routedStores_iff.mp h) hrt
      have hnone : lookupBy pr.1 d = none := by
        rw [← Option.not_isSome_iff_eq_none]
        intro hs
        exact hdn ((mem_dirNames_iff _ _).mpr hs)
      exact fillPass_getFile_nodir hnone name

/-- C10 witness: `claim_C10` on a concrete tree with a non-empty file,
a zero-length file and an untouched sibling file. -/
theorem claim_C10_witness :
    getFile (splitCsvFile "a.csv" [["商店序號"], ["7"]]
        [("7", [("a.csv", [["old"]]), ("b.csv", [["keep"]])]),
         ("8", [("a.csv", [])])]) "7" "b.csv" =
      getFile [("7", [("a.csv", [["old"]]), ("b.csv", [["keep"]])]),
         ("8", [("a.csv", [])])] "7" "b.csv"
    ∧ getFile (splitCsvFile "a.csv" [["商店序號"], ["7"]]
        [("7", [("a.csv", [["old"]]), ("b.csv", [["keep"]])]),
         ("8", [("a.csv", [])])]) "8" "a.csv" = some []
    ∧ getFile (splitCsvFile "a.csv" [["商店序號"], ["7"]]
        [("7", [("a.csv", [["old"]]), ("b.csv", [["keep"]])]),
         ("8", [("a.csv", [])])]) "7" "a.csv" =
      some ([["old"]] ++ routedTo 0 [["7"]] "7")
    ∧ getFile (splitCsvFile "a.csv" [["商店序號"], ["7"]]
        [("7", [("a.csv", [["old"]]), ("b.csv", [["keep"]])]),
         ("8", [("a.csv", [])])]) "9" "a.csv" = none := by
  have h := claim_C10 "a.csv" [["商店序號"], ["7"]]
    [("7", [("a.csv", [["old"]]), ("b.csv", [["keep"]])]),
     ("8", [("a.csv", [])])]
  have h2 := h.2 ⟨[], ["商店序號"], 0, [["7"]]⟩ (by decide)
  exact ⟨h.1 "7" "b.csv" (by decide),
    h2.1 "8" [] (by decide) (by decide),
    h2.2.1 "7" [["old"]] (by decide) (by decide),
    h2.2.2 "9" (by decide) (by decide)⟩

end TingETL

namespace TingETL

/-! ### aggregate_by_store.py : numeric parsing and percent formatting

pandas cells are strings; `pd.to_numeric(..., errors="coerce")` is
modelled by a decimal parser over exact rationals (plain `[-]digits[.digits]`
literals; the scientific notation pandas would also accept does not occur
in these files), and `float` formatting `f"{v:.2f}"` by decimal rounding
half-to-even on the rational value. -/

/-- Digit list to the natural number it denotes. -/
def digitsToNat (cs : List Char) : Nat :=
  cs.foldl (fun n c => 10 * n + (c.toNat - 48)) 0

/-- Decimal literal parser standing for `pd.to_numeric(s, errors="coerce")`
on an already-cleaned cell (`none` = NaN). -/
def parseDecimal (s : String) : Option ℚ :=
  let cs := s.data
  let signed : Bool × List Char :=
    match cs with
    | '-' :: rest => (true, rest)
    | _ => (false, cs)
  let intPart := signed.2.takeWhile Char.isDigit
  let rest := signed.2.dropWhile Char.isDigit
  let val? : Option ℚ :=
    match rest with
    | [] => if intPart.isEmpty then none else some (digitsToNat intPart)
    | '.' :: frac =>
      if frac.all Char.isDigit && (!intPart.isEmpty || !frac.isEmpty) then
        some ((digitsToNat intPart : ℚ)
          + (digitsToNat frac : ℚ) / (10 : ℚ) ^ frac.length)
      else none
    | _ => none
  val?.map fun v => if signed.1 then -v else v

/-- `pd.to_numeric(s, errors="coerce")` (numeric conversion strips the
surrounding whitespace a cleaned cell may still carry). -/
def pdToNumeric (s : String) : Option ℚ := parseDecimal (pyStrip s)

/-- `pd.to_numeric(col, errors="coerce").fillna(0)` on a string column. -/
def toNumericFillZero (col : List String) : List ℚ :=
  col.map fun s => (pdToNumeric s).getD 0

/-- Round a rational to the nearest integer, ties to even (the rounding
of CPython's fixed-point float formatting). -/
def roundHalfEven (q : ℚ) : ℤ :=
  let f := Int.fdiv q.num q.den
  let r := q - (f : ℚ)
  if r < 1 / 2 then f
  else if 1 / 2 < r then f + 1
  else if f % 2 = 0 then f else f + 1

/-- Decimal digit characters of a natural number (most significant
first). -/
def natToDecChars (n : ℕ) : List Char :=
  if _h : n < 10 then [Nat.digitChar n]
  else natToDecChars (n / 10) ++ [Nat.digitChar (n % 10)]
decreasing_by exact Nat.div_lt_self (by omega) (by omega)

/-- Two decimal digits, zero-padded (the fraction part of `:.2f`). -/
def pad2 (n : ℕ) : List Char :=
  if n < 10 then ['0', Nat.digitChar n] else natToDecChars n

/-- Python `f"{y:.2f}"` on an exact rational (sign dropped for negative
values that round to -0.00, unlike CPython's `"-0.00"`; no ratio in
these reports is negative). -/
def fmtFixed2 (y : ℚ) : String :=
  let m := roundHalfEven (y * 100)
  let a := m.natAbs
  ⟨(if m < 0 then ['-'] else []) ++ natToDecChars (a / 100)
    ++ '.' :: pad2 (a % 100)⟩

/-- Python `f"{x * 100:.2f}%"` — the `_fmt_pct` / `_fmt_pct_2` helpers
and the `fmt="percent"` branch of `add_column_ratio`. -/
def fmtPct2 (x : ℚ) : String := fmtFixed2 (x * 100) ++ "%"

/-- Python `f"{x * 100:.0f}%"` — the `fmt="percent_int"` branch of
`add_column_ratio` (config 27). -/
def fmtPctInt (x : ℚ) : String :=
  (⟨(if roundHalfEven (x * 100) < 0 then ['-'] else [])
    ++ natToDecChars (roundHalfEven (x * 100)).natAbs⟩ : String) ++ "%"

/-- The two percent formats the `add_column_ratio` call sites use
(`"percent"` everywhere, `"percent_int"` for config 27's ratios). -/
inductive RatioFmt where
  | percent
  | percentInt
deriving Repr, DecidableEq

/-- `add_column_ratio` (`aggregate_by_store.py` lines 136–162) on one
source column: `ratio = value / total`, the whole target column set to
the empty string when the column total is exactly 0 (also covering the
`df.empty` case, where the column is empty); otherwise the ratio is
formatted per row (the `pd.isna` guard in the code never fires, the
values having been `fillna(0)`-ed). -/
def add_column_ratio (col : List String) (fmt : RatioFmt) : List String :=
  let values := toNumericFillZero col
  let total := values.sum
  if total = 0 then col.map fun _ => ""
  else
    match fmt with
    | .percent => values.map fun v => fmtPct2 (v / total)
    | .percentInt => values.map fun v => fmtPctInt (v / total)

/-- The year-over-year ratio of `run_aggregation` (lines 565–567,
720–722, 798–800): `(cur − prev) / prev` masked by `.where(prev != 0)`
(`none` = NaN). -/
def yoyRatio (cur prev : ℚ) : Option ℚ :=
  if prev ≠ 0 then some ((cur - prev) / prev) else none

/-- The rate ratios (lines 601–603, 827–829, 943–945, 1055–1057,
1176–1178): `num / den` masked by `.where(den != 0)`. -/
def rateRatio (num den : ℚ) : Option ℚ :=
  if den ≠ 0 then some (num / den) else none

/-- `_fmt_pct` / `_fmt_pct_2`: a masked (NaN) ratio renders as the empty
string, a defined one as a two-decimal percentage. -/
def fmtPctOpt (x? : Option ℚ) : String :=
  match x? with
  | none => ""
  | some x => fmtPct2 x

end TingETL

namespace TingETL

/-- C2: wherever an aggregation computes a ratio, a denominator of
exactly zero renders the ratio as the empty string — the whole target
column for share-of-total ratios whose column total is 0 (`add_column_ratio`),
and the per-store cell for year-over-year / rate ratios whose comparison
value is 0 — never `"0.00%"` and never an error value. -/
theorem claim_C2 :
    (∀ (col : List String) (fmt : RatioFmt),
      (toNumericFillZero col).sum = 0 →
      add_column_ratio col fmt = col.map (fun _ => "")
      ∧ ∀ s ∈ add_column_ratio col fmt, s ≠ "0.00%")
    ∧ (∀ cur prev : ℚ, prev = 0 → fmtPctOpt (yoyRatio cur prev) = "")
    ∧ (∀ num den : ℚ, den = 0 → fmtPctOpt (rateRatio num den) = "") := by
  refine ⟨?_, ?_, ?_⟩
  · intro col fmt h
    have heq : add_column_ratio col fmt = col.map fun _ => "" := by
      simp only [add_column_ratio, h, if_pos]
    refine ⟨heq, ?_⟩
    intro s hs
    rw [heq] at hs
    obtain ⟨_, _, rfl⟩ := List.mem_map.mp hs
    decide
  · intro cur prev h
    subst h
    simp [yoyRatio, fmtPctOpt]
  · intro num den h
    subst h
    simp [rateRatio, fmtPctOpt]

/-- C2 witness: `claim_C2` at a column summing to exactly 0 and at
zero-denominator YoY and rate cells. -/
theorem claim_C2_witness :
    (add_column_ratio ["5", "-5"] .percent =
        List.map (fun _ => "") ["5", "-5"]
      ∧ ∀ s ∈ add_column_ratio ["5", "-5"] .percent, s ≠ "0.00%")
    ∧ fmtPctOpt (yoyRatio 1200 0) = ""
    ∧ fmtPctOpt (rateRatio 7 0) = "" :=
  ⟨claim_C2.1 ["5", "-5"] .percent (by with_unfolding_all decide),
   claim_C2.2.1 1200 0 rfl, claim_C2.2.2 7 0 rfl⟩

end TingETL

namespace TingETL

/-! ### aggregate_by_store.py : configs 25-1 / 25-2 (Top 5 / Bottom 5)

A merged result row of the 25-1/25-2 pipeline: store id and branch name
(both already stripped), and the two numeric measures after
`_to_number(...).fillna(0)`. -/
structure BranchRow where
  storeId : String
  storeName : String
  firstPurchase : ℚ
  refBind : ℚ
deriving Repr, DecidableEq

/-- `推薦人綁定佔門市首購佔比` (lines 1055–1057 / 1176–1178):
`refBind / firstPurchase` masked by `.where(firstPurchase != 0)`. -/
def branchRatio (r : BranchRow) : Option ℚ := rateRatio r.refBind r.firstPurchase

/-- `sort_values(..., ascending=False)` key order on the ratio column:
descending, with missing (NaN) last (`na_position="last"`). -/
def ratioLeDesc (a b : Option ℚ) : Bool :=
  match a, b with
  | some x, some y => y ≤ x
  | some _, none => true
  | none, some _ => false
  | none, none => true

/-- `sort_values(..., ascending=True)` key order: ascending, missing
last. -/
def ratioLeAsc (a b : Option ℚ) : Bool :=
  match a, b with
  | some x, some y => x ≤ y
  | some _, none => true
  | none, some _ => false
  | none, none => true

/-- What pandas guarantees for `g.sort_values(ratio_col, ascending=...)`
with the default sort kind (lines 1072 / 1193 pass no `kind=`): `out` is
some permutation of the group's rows ordered by the ratio key — the
relative order of rows with equal ratios is unspecified (only
`kind="mergesort"`/`"stable"` would pin it down). -/
def IsSortValuesResult (le : Option ℚ → Option ℚ → Bool)
    (rs out : List BranchRow) : Prop :=
  out.Perm rs ∧
    List.Pairwise (fun a b => le (branchRatio a) (branchRatio b) = true) out

/-- One admissible result of `g.sort_values(ratio_col, ascending=...)`:
a merge sort by the ratio key alone (no tie-break beyond the key), used
as the executable representative of the unspecified-tie-order sort. -/
def sortRowsBy (le : Option ℚ → Option ℚ → Bool) (rs : List BranchRow) :
    List BranchRow :=
  rs.mergeSort fun a b => le (branchRatio a) (branchRatio b)

/-- Config 25-1 (line 1072): sort descending by the ratio, `.head(5)`. -/
def top5 (rs : List BranchRow) : List BranchRow :=
  (sortRowsBy ratioLeDesc rs).take 5

/-- Config 25-2 (line 1193): sort ascending by the ratio, `.head(5)`. -/
def bottom5 (rs : List BranchRow) : List BranchRow :=
  (sortRowsBy ratioLeAsc rs).take 5

/-- Line 1073: only after the five rows are selected is the ratio column
formatted by `_fmt_pct_2` — the written row is the selected row plus the
rendered ratio string. -/
def top5Output (rs : List BranchRow) : List (BranchRow × String) :=
  (top5 rs).map fun r => (r, fmtPctOpt (branchRatio r))

/-- Line 1194, the Bottom-5 analogue of `top5Output`. -/
def bottom5Output (rs : List BranchRow) : List (BranchRow × String) :=
  (bottom5 rs).map fun r => (r, fmtPctOpt (branchRatio r))

theorem ratioLeDesc_total (a b : Option ℚ) :
    (ratioLeDesc a b || ratioLeDesc b a) = true := by
  cases a <;> cases b <;> simp [ratioLeDesc] <;> exact le_total _ _

theorem ratioLeDesc_trans {a b c : Option ℚ} (h1 : ratioLeDesc a b = true)
    (h2 : ratioLeDesc b c = true) : ratioLeDesc a c = true := by
  cases a <;> cases b <;> cases c <;> simp [ratioLeDesc] at h1 h2 ⊢
  exact le_trans h2 h1

theorem ratioLeAsc_total (a b : Option ℚ) :
    (ratioLeAsc a b || ratioLeAsc b a) = true := by
  cases a <;> cases b <;> simp [ratioLeAsc] <;> exact le_total _ _

theorem ratioLeAsc_trans {a b c : Option ℚ} (h1 : ratioLeAsc a b = true)
    (h2 : ratioLeAsc b c = true) : ratioLeAsc a c = true := by
  cases a <;> cases b <;> cases c <;> simp [ratioLeAsc] at h1 h2 ⊢
  exact le_trans h1 h2

end TingETL

namespace TingETL

/-- Shared shape of the 25-1 / 25-2 per-store selection, holding for
EVERY admissible sort result: the selected head-5 has `min 5 n` rows, is
the whole group (as a multiset) when the group has at most 5 rows, and
is sorted by the ratio key. -/
theorem sortPipeline_props (le : Option ℚ → Option ℚ → Bool)
    (rs out : List BranchRow) (h : IsSortValuesResult le rs out) :
    (out.take 5).length = min 5 rs.length
    ∧ (rs.length = 7 → (out.take 5).length = 5)
    ∧ (rs.length ≤ 5 → (out.take 5).Perm rs)
    ∧ List.Pairwise
        (fun a b => le (branchRatio a) (branchRatio b) = true)
        (out.take 5) := by
  obtain ⟨hperm, hsorted⟩ := h
  have hlen : out.length = rs.length := hperm.length_eq
  refine ⟨?_, ?_, ?_, ?_⟩
  · rw [List.length_take, hlen]
  · intro h7
    rw [List.length_take, hlen, h7]
    decide
  · intro h5
    rw [List.take_of_length_le (by rw [hlen]; exact h5)]
    exact hperm
  · exact List.Pairwise.sublist (List.take_sublist 5 _) hsorted

/-- The executable representative `sortRowsBy` is an admissible
`sort_values` result. -/
theorem sortRowsBy_isResult (le : Option ℚ → Option ℚ → Bool)
    (htot : ∀ a b, (le a b || le b a) = true)
    (htrans : ∀ {a b c}, le a b = true → le b c = true → le a c = true)
    (rs : List BranchRow) :
    IsSortValuesResult le rs (sortRowsBy le rs) := by
  constructor
  · exact List.mergeSort_perm rs fun a b => le (branchRatio a) (branchRatio b)
  · exact @List.sorted_mergeSort _
      (fun a b => le (branchRatio a) (branchRatio b))
      (fun a b c hab hbc => htrans hab hbc) (fun a b => htot _ _) rs

end TingETL

namespace TingETL

/-- C6 counterexample: lines 1072 / 1193 call `sort_values` with the
default sort kind, which guarantees no tie order.  On a two-row group
with equal ratios, the order-reversing permutation is an admissible
`sort_values` result, so "ties keeping the original input row order
(stable sort)" is not a property the program guarantees. -/
theorem claim_C6_counterexample :
    branchRatio ⟨"1", "a", 4, 1⟩ = branchRatio ⟨"1", "b", 4, 1⟩
    ∧ IsSortValuesResult ratioLeDesc
        [⟨"1", "a", 4, 1⟩, ⟨"1", "b", 4, 1⟩]
        [⟨"1", "b", 4, 1⟩, ⟨"1", "a", 4, 1⟩]
    ∧ ([⟨"1", "b", 4, 1⟩, ⟨"1", "a", 4, 1⟩] : List BranchRow)
        ≠ [⟨"1", "a", 4, 1⟩, ⟨"1", "b", 4, 1⟩] := by
  refine ⟨by with_unfolding_all decide, ⟨?_, ?_⟩,
    by with_unfolding_all decide⟩
  · with_unfolding_all decide
  · with_unfolding_all decide

/-- C6 (amended): for the Top-5 (config 25-1) and Bottom-5 (config 25-2)
reports, each store's candidate rows get a numeric per-row ratio
(`branchRatio`), and every admissible result of the pandas sort — a
permutation of the rows ordered by that ratio, descending for Top 5,
ascending for Bottom 5, undefined ratios last, tie order among equal
ratios unspecified — has its first 5 rows kept: a 7-row store yields
exactly 5 rows, a store with at most 5 rows yields exactly all of its
rows (no padding), and the kept rows are sorted by the numeric ratio;
`top5` / `bottom5` take the head-5 of one such admissible execution. -/
theorem claim_C6 :
    (∀ (rs out : List BranchRow), IsSortValuesResult ratioLeDesc rs out →
      (out.take 5).length = min 5 rs.length
      ∧ (rs.length = 7 → (out.take 5).length = 5)
      ∧ (rs.length ≤ 5 → (out.take 5).Perm rs)
      ∧ List.Pairwise
          (fun a b => ratioLeDesc (branchRatio a) (branchRatio b) = true)
          (out.take 5))
    ∧ (∀ (rs out : List BranchRow), IsSortValuesResult ratioLeAsc rs out →
      (out.take 5).length = min 5 rs.length
      ∧ (rs.length = 7 → (out.take 5).length = 5)
      ∧ (rs.length ≤ 5 → (out.take 5).Perm rs)
      ∧ List.Pairwise
          (fun a b => ratioLeAsc (branchRatio a) (branchRatio b) = true)
          (out.take 5))
    ∧ (∀ rs : List BranchRow,
        IsSortValuesResult ratioLeDesc rs (sortRowsBy ratioLeDesc rs)
        ∧ IsSortValuesResult ratioLeAsc rs (sortRowsBy ratioLeAsc rs)
        ∧ top5 rs = (sortRowsBy ratioLeDesc rs).take 5
        ∧ bottom5 rs = (sortRowsBy ratioLeAsc rs).take 5) := by
  refine ⟨?_, ?_, ?_⟩
  · intro rs out h
    exact sortPipeline_props ratioLeDesc rs out h
  · intro rs out h
    exact sortPipeline_props ratioLeAsc rs out h
  · intro rs
    exact ⟨sortRowsBy_isResult ratioLeDesc ratioLeDesc_total
        (fun hab hbc => ratioLeDesc_trans hab hbc) rs,
      sortRowsBy_isResult ratioLeAsc ratioLeAsc_total
        (fun hab hbc => ratioLeAsc_trans hab hbc) rs, rfl, rfl⟩

/-- C6 witness: `claim_C6` at the executable sort of a concrete 7-row
store (with a ratio tie and an undefined ratio) and of a concrete 3-row
store. -/
theorem claim_C6_witness :
    ((sortRowsBy ratioLeDesc
        [⟨"1", "a", 1, 1⟩, ⟨"1", "b", 2, 1⟩, ⟨"1", "c", 4, 1⟩,
         ⟨"1", "d", 4, 1⟩, ⟨"1", "e", 5, 1⟩, ⟨"1", "f", 0, 1⟩,
         ⟨"1", "g", 8, 1⟩]).take 5).length = 5
    ∧ ((sortRowsBy ratioLeAsc
        [⟨"1", "a", 1, 1⟩, ⟨"1", "b", 0, 1⟩, ⟨"1", "c", 4, 1⟩]).take 5).Perm
        [⟨"1", "a", 1, 1⟩, ⟨"1", "b", 0, 1⟩, ⟨"1", "c", 4, 1⟩] :=
  ⟨(claim_C6.1
      [⟨"1", "a", 1, 1⟩, ⟨"1", "b", 2, 1⟩, ⟨"1", "c", 4, 1⟩,
       ⟨"1", "d", 4, 1⟩, ⟨"1", "e", 5, 1⟩, ⟨"1", "f", 0, 1⟩,
       ⟨"1", "g", 8, 1⟩]
      (sortRowsBy ratioLeDesc
        [⟨"1", "a", 1, 1⟩, ⟨"1", "b", 2, 1⟩, ⟨"1", "c", 4, 1⟩,
         ⟨"1", "d", 4, 1⟩, ⟨"1", "e", 5, 1⟩, ⟨"1", "f", 0, 1⟩,
         ⟨"1", "g", 8, 1⟩])
      ⟨by with_unfolding_all decide, by with_unfolding_all decide⟩).2.1
     (by decide),
   (claim_C6.2.1
      [⟨"1", "a", 1, 1⟩, ⟨"1", "b", 0, 1⟩, ⟨"1", "c", 4, 1⟩]
      (sortRowsBy ratioLeAsc
        [⟨"1", "a", 1, 1⟩, ⟨"1", "b", 0, 1⟩, ⟨"1", "c", 4, 1⟩])
      ⟨by with_unfolding_all decide, by with_unfolding_all decide⟩).2.2.1
     (by decide)⟩

end TingETL

namespace TingETL

theorem digitChar_isDigit {d : ℕ} (h : d < 10) :
    (Nat.digitChar d).isDigit = true := by
  interval_cases d <;> decide

theorem natToDecChars_ne_nil (n : ℕ) : natToDecChars n ≠ [] := by
  unfold natToDecChars
  split <;> simp

theorem natToDecChars_all_digits (n : ℕ) :
    ∀ c ∈ natToDecChars n, c.isDigit = true := by
  induction n using Nat.strong_induction_on with
  | _ n ih =>
    intro c hc
    unfold natToDecChars at hc
    split at hc
    · next h =>
      simp only [List.mem_singleton] at hc
      subst hc
      exact digitChar_isDigit h
    · next h =>
      rcases List.mem_append.mp hc with hc | hc
      · exact ih (n / 10) (Nat.div_lt_self (by omega) (by omega)) c hc
      · simp only [List.mem_singleton] at hc
        subst hc
        exact digitChar_isDigit (Nat.mod_lt n (by omega))

theorem pad2_spec (n : ℕ) (h : n < 100) :
    ∃ c1 c2, pad2 n = [c1, c2] ∧ c1.isDigit = true ∧ c2.isDigit = true := by
  unfold pad2
  split
  · next h10 =>
    exact ⟨'0', Nat.digitChar n, rfl, by decide, digitChar_isDigit h10⟩
  · next h10 =>
    have hn : natToDecChars n
        = [Nat.digitChar (n / 10), Nat.digitChar (n % 10)] := by
      unfold natToDecChars
      rw [dif_neg h10]
      unfold natToDecChars
      rw [dif_pos (by omega : n / 10 < 10)]
      rfl
    exact ⟨_, _, hn, digitChar_isDigit (by omega),
      digitChar_isDigit (Nat.mod_lt n (by omega))⟩

/-- The output shape `"12.34%"` the spec asserts: a percent sign, two
decimal digits, a decimal point, at least one digit before it. -/
def isTwoDecimalPercentForm (s : String) : Bool :=
  match s.data.reverse with
  | '%' :: d2 :: d1 :: '.' :: c :: _ => d1.isDigit && d2.isDigit && c.isDigit
  | _ => false

theorem form_of_shape (sign natPart : List Char) (c1 c2 : Char)
    (hnat : natPart ≠ []) (hd : ∀ c ∈ natPart, c.isDigit = true)
    (h1 : c1.isDigit = true) (h2 : c2.isDigit = true) :
    isTwoDecimalPercentForm
      ((⟨sign ++ natPart ++ '.' :: [c1, c2]⟩ : String) ++ "%") = true := by
  unfold isTwoDecimalPercentForm
  have hdata : ((⟨sign ++ natPart ++ '.' :: [c1, c2]⟩ : String) ++ "%").data
      = sign ++ natPart ++ ['.', c1, c2, '%'] := by
    rw [String.data_append]
    simp
  rw [hdata]
  obtain ⟨hh, t, hht⟩ : ∃ hh t, natPart.reverse = hh :: t := by
    cases hnp : natPart.reverse with
    | nil =>
      exfalso
      exact hnat (by simpa using congrArg List.reverse hnp)
    | cons hh t => exact ⟨hh, t, rfl⟩
  have hhd : hh.isDigit = true :=
    hd hh (List.mem_reverse.mp (by rw [hht]; simp))
  have hrev : (sign ++ natPart ++ ['.', c1, c2, '%']).reverse
      = '%' :: c2 :: c1 :: '.' :: hh :: (t ++ sign.reverse) := by
    simp [hht]
  rw [hrev]
  simp [h1, h2, hhd]

theorem fmtPct2_form (x : ℚ) : isTwoDecimalPercentForm (fmtPct2 x) = true := by
  obtain ⟨c1, c2, hpad, h1, h2⟩ :=
    pad2_spec ((roundHalfEven (x * 100 * 100)).natAbs % 100)
      (Nat.mod_lt _ (by omega))
  have hrw : fmtPct2 x =
      (⟨(if roundHalfEven (x * 100 * 100) < 0 then ['-'] else [])
        ++ natToDecChars ((roundHalfEven (x * 100 * 100)).natAbs / 100)
        ++ '.' :: [c1, c2]⟩ : String) ++ "%" := by
    simp only [fmtPct2, fmtFixed2]
    rw [hpad]
  rw [hrw]
  exact form_of_shape _ _ c1 c2 (natToDecChars_ne_nil _)
    (natToDecChars_all_digits _) h1 h2

theorem fmtPctInt_shape (x : ℚ) :
    '.' ∉ (fmtPctInt x).data
    ∧ (fmtPctInt x).data.reverse.head? = some '%' := by
  have hdata : (fmtPctInt x).data =
      ((if roundHalfEven (x * 100) < 0 then ['-'] else [])
        ++ natToDecChars (roundHalfEven (x * 100)).natAbs) ++ ['%'] := by
    simp only [fmtPctInt]
    rw [String.data_append]
  rw [hdata]
  constructor
  · intro hmem
    rcases List.mem_append.mp hmem with hmem | hmem
    · rcases List.mem_append.mp hmem with hmem | hmem
      · split at hmem <;> simp at hmem
      · exact absurd (natToDecChars_all_digits _ '.' hmem) (by decide)
    · simp at hmem
  · simp

end TingETL

namespace TingETL

/-- C7 counterexample: config 27's ratios use `fmt="percent_int"`
(`f"{x*100:.0f}%"`): on the column `["1", "3"]` (total 4, both ratios
defined) the rendered cell is `"25%"`, which is not a fixed two-decimal
percentage string — refuting "every defined ratio is rendered as a fixed
two-decimal percentage string". -/
theorem claim_C7_counterexample :
    (toNumericFillZero ["1", "3"]).sum ≠ 0
    ∧ "25%" ∈ add_column_ratio ["1", "3"] RatioFmt.percentInt
    ∧ isTwoDecimalPercentForm "25%" = false :=
  ⟨by with_unfolding_all decide, by with_unfolding_all decide, by decide⟩

/-- C7 (amended): ratios formatted with `fmt="percent"` (and the
`_fmt_pct` helpers) render defined values as fixed two-decimal
percentage strings `"12.34%"`, while config 27's `fmt="percent_int"`
ratios render as whole-number percent strings (digits and `%`, no
decimal point); every undefined ratio renders as the empty string; and
formatting happens only at final output — the Top-5/Bottom-5 selection
is computed from the numeric ratios, the formatted string being attached
after the 5 rows are chosen. -/
theorem claim_C7 :
    (∀ col : List String, (toNumericFillZero col).sum ≠ 0 →
      ∀ s ∈ add_column_ratio col RatioFmt.percent,
        isTwoDecimalPercentForm s = true)
    ∧ (∀ col : List String, (toNumericFillZero col).sum = 0 →
        ∀ s ∈ add_column_ratio col RatioFmt.percent, s = "")
    ∧ (∀ x? : Option ℚ,
        fmtPctOpt x? = "" ∨ isTwoDecimalPercentForm (fmtPctOpt x?) = true)
    ∧ (∀ x? : Option ℚ, x? = none → fmtPctOpt x? = "")
    ∧ (∀ col : List String, (toNumericFillZero col).sum ≠ 0 →
        ∀ s ∈ add_column_ratio col RatioFmt.percentInt,
          '.' ∉ s.data ∧ s.data.reverse.head? = some '%')
    ∧ (∀ rs : List BranchRow,
        (top5Output rs).map Prod.fst = top5 rs
        ∧ (bottom5Output rs).map Prod.fst = bottom5 rs
        ∧ ∀ pr ∈ top5Output rs,
            pr.2 = "" ∨ isTwoDecimalPercentForm pr.2 = true) := by
  refine ⟨?_, ?_, ?_, ?_, ?_, ?_⟩
  · intro col h s hs
    simp only [add_column_ratio, if_neg h] at hs
    obtain ⟨v, _, rfl⟩ := List.mem_map.mp hs
    exact fmtPct2_form _
  · intro col h s hs
    simp only [add_column_ratio, if_pos h] at hs
    obtain ⟨_, _, rfl⟩ := List.mem_map.mp hs
    rfl
  · intro x?
    cases x? with
    | none => exact Or.inl rfl
    | some x => exact Or.inr (fmtPct2_form x)
  · intro x? h
    rw [h]
    rfl
  · intro col h s hs
    simp only [add_column_ratio, if_neg h] at hs
    obtain ⟨v, _, rfl⟩ := List.mem_map.mp hs
    exact fmtPctInt_shape _
  · intro rs
    refine ⟨?_, ?_, ?_⟩
    · unfold top5Output
      rw [List.map_map]
      exact List.map_id _
    · unfold bottom5Output
      rw [List.map_map]
      exact List.map_id _
    · intro pr hpr
      unfold top5Output at hpr
      obtain ⟨r, _, rfl⟩ := List.mem_map.mp hpr
      cases hb : branchRatio r with
      | none => exact Or.inl (by simp [fmtPctOpt, hb])
      | some v => exact Or.inr (by simp only [fmtPctOpt, hb]; exact fmtPct2_form v)

/-- C7 witness: `claim_C7` at the concrete column `["1", "3"]` (ratio
cell `"25.00%"` is in two-decimal form) and at an undefined ratio. -/
theorem claim_C7_witness :
    isTwoDecimalPercentForm "25.00%" = true
    ∧ fmtPctOpt none = "" :=
  ⟨claim_C7.1 ["1", "3"] (by with_unfolding_all decide) "25.00%"
      (by with_unfolding_all decide),
   claim_C7.2.2.2.1 none rfl⟩

end TingETL

namespace TingETL

/-! ### verify_fanout.py -/

/-- The header scan of `check_store_no_values` (lines 67–78): unlike the
partitioner's locator it matches only the single alias `商店序號`; the
result is the 1-based header row number, the alias's column index, and
the remaining data rows.  `n` counts the rows already scanned. -/
def verifierFindHeaderAux (n : Nat) : List Row → Option (Nat × Nat × List Row)
  | [] => none
  | r :: rest =>
    if "商店序號" ∈ r then some (n + 1, r.findIdx (· = "商店序號"), rest)
    else verifierFindHeaderAux (n + 1) rest

/-- Header scan of one per-store CSV. -/
def verifierFindHeader (rows : List Row) : Option (Nat × Nat × List Row) :=
  verifierFindHeaderAux 0 rows

/-- Lines 90–93: the checked cell — the store-id column, or the empty
string when the row is too short. -/
def actualCell (idx : Nat) (row : Row) : String := row.getD idx ""

/-- The synthetic violation message for a file without the header. -/
def MISSING_HEADER_MSG : String := "<missing 商店序號 header>"

/-- The data-row loop of `check_store_no_values` (lines 87–97): every
row whose trimmed store-id cell differs from the directory name counts
one violation, and the first 5 are recorded as
`(row number, raw cell)`. -/
def checkRows (store : String) (idx : Nat) :
    Nat → List Row → List (Nat × String) → Nat → List (Nat × String) × Nat
  | _, [], acc, total => (acc, total)
  | rowNum, r :: rest, acc, total =>
    if pyStrip (actualCell idx r) ≠ store then
      checkRows store idx (rowNum + 1) rest
        (if acc.length < 5 then acc ++ [(rowNum + 1, actualCell idx r)]
         else acc)
        (total + 1)
    else checkRows store idx (rowNum + 1) rest acc total

/-- `check_store_no_values` on a single file of store `store`: the
recorded violations and this file's contribution to the total violation
count; a header-less file yields exactly one synthetic violation. -/
def checkFile (store : String) (rows : List Row) :
    List (Nat × String) × Nat :=
  match verifierFindHeader rows with
  | none => ([(1, MISSING_HEADER_MSG)], 1)
  | some (hnum, idx, dataRows) => checkRows store idx hnum dataRows [] 0

/-- `entry.name.lower().endswith(".csv")`. -/
def isCsvName (s : String) : Bool := (s.toLower).endsWith ".csv"

/-- The CSV entries of a store directory. -/
def storeCsvEntries (files : DirFiles) : DirFiles :=
  files.filter fun f => isCsvName f.1

/-- `list_store_files`: the CSV file names of a store directory. -/
def storeCsvFiles (files : DirFiles) : List String :=
  (storeCsvEntries files).map Prod.fst

/-- `check_store_no_values` over the whole tree:
`(checked files, violated files, total violations)`. -/
def checkStoreNoValues (tree : FS) : Nat × Nat × Nat :=
  tree.foldl
    (fun acc e =>
      (storeCsvEntries e.2).foldl
        (fun acc f =>
          let r := checkFile e.1 f.2
          (acc.1 + 1, acc.2.1 + (if r.1 ≠ [] then 1 else 0), acc.2.2 + r.2))
        acc)
    (0, 0, 0)

/-- `check_file_sets` (lines 32–48): for every store directory,
`missing = inputFiles − storeFiles` and `extra = storeFiles − inputFiles`,
collected for all stores, only non-empty differences kept. -/
def checkFileSets (inputFiles : List String) (tree : FS) :
    List (String × List String) × List (String × List String) :=
  (tree.filterMap fun e =>
     let m := inputFiles.filter fun f => f ∉ storeCsvFiles e.2
     if m = [] then none else some (e.1, m),
   tree.filterMap fun e =>
     let x := (storeCsvFiles e.2).filter fun f => f ∉ inputFiles
     if x = [] then none else some (e.1, x))

/-- The result of one `verify_fanout.py` run: both reports in full and
the process exit status. -/
structure VerifierRun where
  missingByStore : List (String × List String)
  extraByStore : List (String × List String)
  checkedFiles : Nat
  violatedFiles : Nat
  totalViolations : Nat
  exitCode : Nat
deriving Repr, DecidableEq

/-- `main` (lines 168–188): both checks are computed and reported in
full, then `SystemExit(1 if has_errors else 0)` with
`has_errors = bool(missing_by_store or extra_by_store or total_violations)`. -/
def verifierMain (inputFiles : List String) (tree : FS) : VerifierRun :=
  let sets := checkFileSets inputFiles tree
  let content := checkStoreNoValues tree
  { missingByStore := sets.1
    extraByStore := sets.2
    checkedFiles := content.1
    violatedFiles := content.2.1
    totalViolations := content.2.2
    exitCode :=
      if sets.1 ≠ [] ∨ sets.2 ≠ [] ∨ content.2.2 ≠ 0 then 1 else 0 }

end TingETL

namespace TingETL

theorem verifierFindHeaderAux_some (rows : List Row) :
    ∀ n hnum idx dataRows,
      verifierFindHeaderAux n rows = some (hnum, idx, dataRows) →
      ∃ pre hdr, rows = pre ++ hdr :: dataRows
        ∧ hnum = n + pre.length + 1
        ∧ (∀ r ∈ pre, "商店序號" ∉ r)
        ∧ "商店序號" ∈ hdr
        ∧ idx = hdr.findIdx (· = "商店序號") := by
  induction rows with
  | nil => intro n hnum idx dataRows h; simp [verifierFindHeaderAux] at h
  | cons r rest ih =>
    intro n hnum idx dataRows h
    unfold verifierFindHeaderAux at h
    by_cases hr : "商店序號" ∈ r
    · rw [if_pos hr] at h
      simp only [Option.some.injEq, Prod.mk.injEq] at h
      obtain ⟨h1, h2, h3⟩ := h
      exact ⟨[], r, by simp [h3], by simp [← h1], by simp, hr, h2.symm⟩
    · rw [if_neg hr] at h
      obtain ⟨pre, hdr, hrows, hnum', hall, hmem, hidx⟩ :=
        ih (n + 1) hnum idx dataRows h
      refine ⟨r :: pre, hdr, by simp [hrows], by simp [hnum']; omega, ?_,
        hmem, hidx⟩
      intro x hx
      rcases List.mem_cons.mp hx with rfl | hx
      · exact hr
      · exact hall x hx

theorem verifierFindHeaderAux_none (rows : List Row) :
    ∀ n, verifierFindHeaderAux n rows = none →
      ∀ r ∈ rows, "商店序號" ∉ r := by
  induction rows with
  | nil => intro n _ r hr; simp at hr
  | cons x rest ih =>
    intro n h r hr
    unfold verifierFindHeaderAux at h
    by_cases hx : "商店序號" ∈ x
    · rw [if_pos hx] at h; simp at h
    · rw [if_neg hx] at h
      rcases List.mem_cons.mp hr with rfl | hr
      · exact hx
      · exact ih (n + 1) h r hr

theorem checkRows_total (store : String) (idx : Nat) (rows : List Row) :
    ∀ n acc total, (checkRows store idx n rows acc total).2 =
      total + (rows.filter fun r =>
        decide (pyStrip (actualCell idx r) ≠ store)).length := by
  induction rows with
  | nil => intro n acc total; simp [checkRows]
  | cons r rest ih =>
    intro n acc total
    unfold checkRows
    by_cases hr : pyStrip (actualCell idx r) ≠ store
    · rw [if_pos hr, ih]
      simp [List.filter_cons, hr]
      omega
    · rw [if_neg hr, ih]
      simp [List.filter_cons, hr]

theorem checkRows_recorded_le (store : String) (idx : Nat) (rows : List Row) :
    ∀ n acc total, acc.length ≤ 5 →
      (checkRows store idx n rows acc total).1.length ≤ 5 := by
  induction rows with
  | nil => intro n acc total h; simpa [checkRows] using h
  | cons r rest ih =>
    intro n acc total h
    unfold checkRows
    by_cases hr : pyStrip (actualCell idx r) ≠ store
    · rw [if_pos hr]
      apply ih
      by_cases h5 : acc.length < 5
      · rw [if_pos h5]
        simp
        omega
      · rw [if_neg h5]
        exact h
    · rw [if_neg hr]
      exact ih _ _ _ h

/-- C8 counterexample: the verifier's content check does not use the
partitioner's alias set — it matches only `商店序號`.  A per-store file
whose header is the alias `shopId` is located by the §4.1 Header Locator
(`findHeader`), yet the verifier records a synthetic missing-header
violation for it. -/
theorem claim_C8_counterexample :
    verifierFindHeader [["shopId"], ["5"]] = none
    ∧ (findHeader [["shopId"], ["5"]]).isSome = true
    ∧ checkFile "5" [["shopId"], ["5"]] = ([(1, MISSING_HEADER_MSG)], 1) := by
  refine ⟨by decide, by decide, by decide⟩

/-- C8 (amended): the Verifier re-locates the store-identifier header
with the same first-matching-row scan as §4.1 but matching only the
single alias `商店序號` (the first entry of the partitioner's alias
list): rows before the first row containing it are skipped, its first
column index is used; if no row matches, exactly one synthetic violation
is recorded for the file; otherwise every data row whose trimmed cell in
that column differs from the enclosing directory's name counts one
violation toward the total, and at most 5 per file are recorded. -/
theorem claim_C8 :
    STORE_ID_HEADERS.headD "" = "商店序號"
    ∧ (∀ (store : String) (rows : List Row), verifierFindHeader rows = none →
        checkFile store rows = ([(1, MISSING_HEADER_MSG)], 1)
        ∧ ∀ r ∈ rows, "商店序號" ∉ r)
    ∧ (∀ (rows : List Row) (hnum idx : Nat) (dataRows : List Row),
        verifierFindHeader rows = some (hnum, idx, dataRows) →
        ∃ pre hdr, rows = pre ++ hdr :: dataRows
          ∧ hnum = pre.length + 1
          ∧ (∀ r ∈ pre, "商店序號" ∉ r)
          ∧ "商店序號" ∈ hdr
          ∧ idx = hdr.findIdx (· = "商店序號"))
    ∧ (∀ (store : String) (rows : List Row) (hnum idx : Nat)
        (dataRows : List Row),
        verifierFindHeader rows = some (hnum, idx, dataRows) →
        (checkFile store rows).2 =
          (dataRows.filter fun r =>
            decide (pyStrip (actualCell idx r) ≠ store)).length
        ∧ (checkFile store rows).1.length ≤ 5) := by
  refine ⟨by decide, ?_, ?_, ?_⟩
  · intro store rows h
    refine ⟨?_, verifierFindHeaderAux_none rows 0 h⟩
    unfold checkFile
    rw [h]
  · intro rows hnum idx dataRows h
    obtain ⟨pre, hdr, h1, h2, h3, h4, h5⟩ :=
      verifierFindHeaderAux_some rows 0 hnum idx dataRows h
    exact ⟨pre, hdr, h1, by omega, h3, h4, h5⟩
  · intro store rows hnum idx dataRows h
    have hcf : checkFile store rows = checkRows store idx hnum dataRows [] 0 := by
      unfold checkFile
      rw [h]
    rw [hcf, checkRows_total]
    exact ⟨by omega, checkRows_recorded_le store idx dataRows hnum [] 0 (by simp)⟩

/-- C8 witness: `claim_C8` at a header-less file and at a concrete file
with one matching, one whitespace-matching and six mismatching rows. -/
theorem claim_C8_witness :
    (checkFile "40316" [["junk"]] = ([(1, MISSING_HEADER_MSG)], 1)
      ∧ ∀ r ∈ ([["junk"]] : List Row), "商店序號" ∉ r)
    ∧ (checkFile "40316"
        [["商店序號"], ["40316"], [" 40316 "], ["99"], ["98"], ["97"],
         ["96"], ["95"], ["94"]]).2 =
      (([["40316"], [" 40316 "], ["99"], ["98"], ["97"], ["96"], ["95"],
         ["94"]] : List Row).filter fun r =>
           decide (pyStrip (actualCell 0 r) ≠ "40316")).length
    ∧ (checkFile "40316"
        [["商店序號"], ["40316"], [" 40316 "], ["99"], ["98"], ["97"],
         ["96"], ["95"], ["94"]]).1.length ≤ 5 :=
  ⟨claim_C8.2.1 "40316" [["junk"]] (by decide),
   (claim_C8.2.2.2 "40316"
     [["商店序號"], ["40316"], [" 40316 "], ["99"], ["98"], ["97"],
      ["96"], ["95"], ["94"]] 1 0
     [["40316"], [" 40316 "], ["99"], ["98"], ["97"], ["96"], ["95"],
      ["94"]] (by decide)).1,
   (claim_C8.2.2.2 "40316"
     [["商店序號"], ["40316"], [" 40316 "], ["99"], ["98"], ["97"],
      ["96"], ["95"], ["94"]] 1 0
     [["40316"], [" 40316 "], ["99"], ["98"], ["97"], ["96"], ["95"],
      ["94"]] (by decide)).2⟩

end TingETL

namespace TingETL

theorem mem_checkFileSets_missing {inputFiles : List String} {tree : FS}
    {s : String} {m : List String} :
    (s, m) ∈ (checkFileSets inputFiles tree).1 ↔
      ∃ files, (s, files) ∈ tree
        ∧ m = inputFiles.filter (fun f => f ∉ storeCsvFiles files)
        ∧ m ≠ [] := by
  unfold checkFileSets
  rw [List.mem_filterMap]
  constructor
  · rintro ⟨e, he, hsome⟩
    dsimp only at hsome
    split at hsome
    · simp at hsome
    · next hm =>
      simp only [Option.some.injEq, Prod.mk.injEq] at hsome
      obtain ⟨h1, h2⟩ := hsome
      have he' : (e.1, e.2) ∈ tree := by simpa using he
      rw [h1] at he'
      exact ⟨e.2, he', h2.symm, h2 ▸ hm⟩
  · rintro ⟨files, hmem, hm, hne⟩
    refine ⟨(s, files), hmem, ?_⟩
    have hfne : inputFiles.filter (fun f => f ∉ storeCsvFiles files) ≠ [] :=
      hm ▸ hne
    rw [if_neg hfne, ← hm]

theorem mem_checkFileSets_extra {inputFiles : List String} {tree : FS}
    {s : String} {x : List String} :
    (s, x) ∈ (checkFileSets inputFiles tree).2 ↔
      ∃ files, (s, files) ∈ tree
        ∧ x = (storeCsvFiles files).filter (fun f => f ∉ inputFiles)
        ∧ x ≠ [] := by
  unfold checkFileSets
  rw [List.mem_filterMap]
  constructor
  · rintro ⟨e, he, hsome⟩
    dsimp only at hsome
    split at hsome
    · simp at hsome
    · next hx =>
      simp only [Option.some.injEq, Prod.mk.injEq] at hsome
      obtain ⟨h1, h2⟩ := hsome
      have he' : (e.1, e.2) ∈ tree := by simpa using he
      rw [h1] at he'
      exact ⟨e.2, he', h2.symm, h2 ▸ hx⟩
  · rintro ⟨files, hmem, hx, hne⟩
    refine ⟨(s, files), hmem, ?_⟩
    have hfne : (storeCsvFiles files).filter (fun f => f ∉ inputFiles) ≠ [] :=
      hx ▸ hne
    rw [if_neg hfne, ← hx]

theorem checkFileSets_missing_ne_nil {inputFiles : List String} {tree : FS} :
    (checkFileSets inputFiles tree).1 ≠ [] ↔
      ∃ e ∈ tree, ∃ f ∈ inputFiles, f ∉ storeCsvFiles e.2 := by
  unfold checkFileSets
  rw [Ne, List.filterMap_eq_nil]
  constructor
  · intro h
    push_neg at h
    obtain ⟨e, he, hne⟩ := h
    refine ⟨e, he, ?_⟩
    by_cases hm : inputFiles.filter (fun f => f ∉ storeCsvFiles e.2) = []
    · simp [hm] at hne
      exact hne
    · obtain ⟨f, hf⟩ := List.exists_mem_of_ne_nil _ hm
      have := List.mem_filter.mp hf
      exact ⟨f, this.1, by simpa using this.2⟩
  · rintro ⟨e, he, f, hf, hnotf⟩ hall
    have := hall e he
    have hm : inputFiles.filter (fun f => f ∉ storeCsvFiles e.2) ≠ [] := by
      intro hnil
      have := List.filter_eq_nil_iff.mp hnil f hf
      simp [hnotf] at this
    rw [if_neg hm] at this
    simp at this

theorem checkFileSets_extra_ne_nil {inputFiles : List String} {tree : FS} :
    (checkFileSets inputFiles tree).2 ≠ [] ↔
      ∃ e ∈ tree, ∃ f ∈ storeCsvFiles e.2, f ∉ inputFiles := by
  unfold checkFileSets
  rw [Ne, List.filterMap_eq_nil]
  constructor
  · intro h
    push_neg at h
    obtain ⟨e, he, hne⟩ := h
    refine ⟨e, he, ?_⟩
    by_cases hx : (storeCsvFiles e.2).filter (fun f => f ∉ inputFiles) = []
    · simp [hx] at hne
      exact hne
    · obtain ⟨f, hf⟩ := List.exists_mem_of_ne_nil _ hx
      have := List.mem_filter.mp hf
      exact ⟨f, this.1, by simpa using this.2⟩
  · rintro ⟨e, he, f, hf, hnotf⟩ hall
    have := hall e he
    have hx : (storeCsvFiles e.2).filter (fun f => f ∉ inputFiles) ≠ [] := by
      intro hnil
      have := List.filter_eq_nil_iff.mp hnil f hf
      simp [hnotf] at this
    rw [if_neg hx] at this
    simp at this

/-- C9: the file-set check computes, per store directory,
`missing = inputFiles − storeFiles` and `extra = storeFiles − inputFiles`,
collecting all stores without halting; both reports are fields of the
run's result, computed in full regardless of errors; and the exit status
is non-zero exactly when some store misses an input file, some store has
an extra file, or at least one content violation was counted. -/
theorem claim_C9 (inputFiles : List String) (tree : FS) :
    ((verifierMain inputFiles tree).missingByStore =
        (checkFileSets inputFiles tree).1
      ∧ (verifierMain inputFiles tree).extraByStore =
        (checkFileSets inputFiles tree).2
      ∧ (verifierMain inputFiles tree).totalViolations =
        (checkStoreNoValues tree).2.2
      ∧ (verifierMain inputFiles tree).violatedFiles =
        (checkStoreNoValues tree).2.1
      ∧ (verifierMain inputFiles tree).checkedFiles =
        (checkStoreNoValues tree).1)
    ∧ (∀ (s : String) (m : List String),
        (s, m) ∈ (verifierMain inputFiles tree).missingByStore ↔
          ∃ files, (s, files) ∈ tree
            ∧ m = inputFiles.filter (fun f => f ∉ storeCsvFiles files)
            ∧ m ≠ [])
    ∧ (∀ (s : String) (x : List String),
        (s, x) ∈ (verifierMain inputFiles tree).extraByStore ↔
          ∃ files, (s, files) ∈ tree
            ∧ x = (storeCsvFiles files).filter (fun f => f ∉ inputFiles)
            ∧ x ≠ [])
    ∧ ((verifierMain inputFiles tree).exitCode ≠ 0 ↔
        (∃ e ∈ tree, ∃ f ∈ inputFiles, f ∉ storeCsvFiles e.2)
        ∨ (∃ e ∈ tree, ∃ f ∈ storeCsvFiles e.2, f ∉ inputFiles)
        ∨ (checkStoreNoValues tree).2.2 ≠ 0) := by
  refine ⟨⟨rfl, rfl, rfl, rfl, rfl⟩, ?_, ?_, ?_⟩
  · intro s m
    exact mem_checkFileSets_missing
  · intro s x
    exact mem_checkFileSets_extra
  · show (if (checkFileSets inputFiles tree).1 ≠ []
        ∨ (checkFileSets inputFiles tree).2 ≠ []
        ∨ (checkStoreNoValues tree).2.2 ≠ 0 then 1 else 0) ≠ 0 ↔ _
    by_cases hc : (checkFileSets inputFiles tree).1 ≠ []
        ∨ (checkFileSets inputFiles tree).2 ≠ []
        ∨ (checkStoreNoValues tree).2.2 ≠ 0
    · rw [if_pos hc]
      refine ⟨fun _ => ?_, fun _ => by decide⟩
      rcases hc with hc | hc | hc
      · exact Or.inl (checkFileSets_missing_ne_nil.mp hc)
      · exact Or.inr (Or.inl (checkFileSets_extra_ne_nil.mp hc))
      · exact Or.inr (Or.inr hc)
    · rw [if_neg hc]
      refine ⟨fun h0 => absurd rfl h0, fun h => ?_⟩
      exfalso
      push_neg at hc
      rcases h with h | h | h
      · exact absurd hc.1 (by simpa using checkFileSets_missing_ne_nil.mpr h)
      · exact absurd hc.2.1
          (by simpa using checkFileSets_extra_ne_nil.mpr h)
      · exact h hc.2.2

/-- C9 witness: `claim_C9` at a concrete one-store tree missing its
input file and holding an extra file. -/
theorem claim_C9_witness :
    ((("8" : String), (["a.csv"] : List String)) ∈
        (verifierMain ["a.csv"] [("8", [("b.csv", [])])]).missingByStore
      ↔ ∃ files, (("8" : String), files) ∈ ([("8", [("b.csv", [])])] : FS)
          ∧ (["a.csv"] : List String) =
            (["a.csv"] : List String).filter
              (fun f => f ∉ storeCsvFiles files)
          ∧ (["a.csv"] : List String) ≠ [])
    ∧ ((verifierMain ["a.csv"] [("8", [("b.csv", [])])]).exitCode ≠ 0 ↔
        (∃ e ∈ ([("8", [("b.csv", [])])] : FS),
          ∃ f ∈ (["a.csv"] : List String), f ∉ storeCsvFiles e.2)
        ∨ (∃ e ∈ ([("8", [("b.csv", [])])] : FS),
            ∃ f ∈ storeCsvFiles e.2, f ∉ (["a.csv"] : List String))
        ∨ (checkStoreNoValues [("8", [("b.csv", [])])]).2.2 ≠ 0) :=
  ⟨(claim_C9 ["a.csv"] [("8", [("b.csv", [])])]).2.1 "8" ["a.csv"],
   (claim_C9 ["a.csv"] [("8", [("b.csv", [])])]).2.2.2⟩

end TingETL
